import Mathlib

/-!
Shallow embedding of the tag-map graph engine of `tag_map_view.py`:
the node-boundary intersection geometry, the spiral layout search, and
the graph scene with its reconcile, serialization and mouse interaction
logic.  Mutable Python objects are modelled by explicit state passing;
object identity of connection objects is modelled by a numeric id
(`TagMapScene.next_id` plays the role of Python object allocation);
Python floats are modelled as real numbers; places where the Python code
could raise are modelled by `Option`.
-/

namespace TagMap

noncomputable section
open Classical

/-- A point in scene coordinates (a Python `(x, y)` float pair). -/
abbrev Pos : Type := ℝ × ℝ

/-- `TagNode.get_intersection_point` (tag_map_view.py, lines 100-131).
The node ellipse has rect `(-45, -15, 90, 30)`, so at the call sites
`rx = 45` and `ry = 15`; the definition keeps them as parameters exactly
as the Python code reads them from `ellipse.rect()`.  `none` models a
Python exception (`ZeroDivisionError` from `1/(rx*rx)`, `1/(ry*ry)` or
`1/d`, or a `math.sqrt` domain error); in the reachable cases with the
real half-axes these guards never fire.  The division `dy / dx` is total
in Lean, and the branch condition `¬ |dx| < 1e-6` guarantees `dx ≠ 0`,
matching Python where that division is only evaluated in this branch. -/
def get_intersection_point (rx ry dx dy : ℝ) : Option Pos :=
  if dx = 0 ∧ dy = 0 then some (0, 0)
  else if |dx| < 1e-6 then some (0, if 0 < dy then ry else -ry)
  else if rx * rx = 0 then none
  else if ry * ry = 0 then none
  else
    let m := dy / dx
    let d := 1 / (rx * rx) + m * m / (ry * ry)
    if d = 0 then none
    else
      let x2 := 1 / d
      if x2 < 0 then none
      else
        let x0 := Real.sqrt x2
        let x := if dx < 0 then -x0 else x0
        some (x, m * x)

/-- `TagConnection.update_position` (lines 44-65), restricted to the data
that outlives the call: the rendered segment's two scene endpoints.
`mapFromScene`/`mapToScene` for an untransformed item at position `p`
are `q - p` and `q + p`.  The label midpoint placement is pure display
state (it depends on font metrics) and is not part of the model. -/
def update_position (startPos endPos : Pos) : Option (Pos × Pos) :=
  match get_intersection_point 45 15 (endPos.1 - startPos.1) (endPos.2 - startPos.2),
        get_intersection_point 45 15 (startPos.1 - endPos.1) (startPos.2 - endPos.2) with
  | some i1, some i2 =>
      some ((startPos.1 + i1.1, startPos.2 + i1.2), (endPos.1 + i2.1, endPos.2 + i2.2))
  | _, _ => none

/-- The collision test of `_find_next_available_pos` (lines 188-194):
a candidate `(x, y)` is occupied when some existing position is closer
than 120 horizontally and 50 vertically at the same time. -/
def collides (occupied : List Pos) (x y : ℝ) : Prop :=
  ∃ p ∈ occupied, |p.1 - x| < 120 ∧ |p.2 - y| < 50

/-- The `while True` loop of `_find_next_available_pos` (lines 182-202),
made total with an explicit fuel parameter: `none` means the modelled
iteration budget ran out (the Python loop would simply keep searching).
`theta` is the angle in degrees, advanced by 30 and reset to 0 with a
radius increment of 10 once it would reach 360; `math.radians` is
`theta * pi / 180`. -/
def find_pos_loop (occupied : List Pos) (cx cy : ℝ) : ℕ → ℝ → ℕ → Option Pos
  | 0, _, _ => none
  | fuel + 1, r, theta =>
      let x := cx + r * Real.cos (theta * Real.pi / 180)
      let y := cy + r * Real.sin (theta * Real.pi / 180)
      if collides occupied x y then
        if 360 ≤ theta + 30 then find_pos_loop occupied cx cy fuel (r + 10) 0
        else find_pos_loop occupied cx cy fuel r (theta + 30)
      else some (x, y)

/-- `TagMapScene._find_next_available_pos` (lines 175-202): spiral search
starting at radius 150, angle 0. -/
def find_next_available_pos (fuel : ℕ) (occupied : List Pos) (center_x center_y : ℝ) :
    Option Pos :=
  find_pos_loop occupied center_x center_y fuel 150 0

/-- A `TagConnection` object (lines 11-42).  `id` is the connection
object's own identity.  Python stores two node object references; the
code reads a reference only for its immutable `tag_name` attribute
(serialization, line 39-40) and for its object identity (the duplicate
comparison `edge.end_node == end_node`, line 273, which is identity for
these classes).  The model therefore records each endpoint reference as
the referenced node object's `tag_name` (`start_node` / `end_node`)
together with that object's identity (`start_node_id` / `end_node_id`).
A node removed from the dict and re-created under the same tag is a new
object with a fresh identity, so a stale edge's `end_node_id` no longer
matches it — exactly as Python's `==` on the dead reference. -/
structure TagConnection where
  id : ℕ
  start_node : String
  end_node : String
  start_node_id : ℕ
  end_node_id : ℕ
  label : String
deriving DecidableEq

/-- The mutable state of a `TagNode` object (lines 77-165): its object
identity (`id`, Python's `id(node)`, drawn from the scene's shared
allocation counter), its scene position, its `edges` back-reference
list, and the highlight flag set by `set_highlighted`. -/
structure TagNode where
  id : ℕ
  pos : Pos
  edges : List TagConnection
  highlighted : Bool

/-- One record of the serialized `connections` list: `{start, end, label}`.
`label` is `Option` because `populate_scene` reads it with
`conn_data.get("label", "")`, tolerating a missing key. -/
structure ConnData where
  start : String
  end_ : String
  label : Option String
deriving DecidableEq

/-- The persisted layout document: `{"nodes": {...}, "connections": [...]}`.
A node entry is kept only when it carries both `x` and `y`. -/
structure LayoutData where
  nodes : List (String × Pos)
  connections : List ConnData

/-- The state of a `TagMapScene` (lines 167-335): the `nodes` dict (an
insertion-ordered association list with unique keys), the `TagConnection`
items currently added to the scene, the pending gesture start node, the
stored `tags` and `layout_data`, and the allocation counter for
connection identity. -/
structure TagMapScene where
  nodes : List (String × TagNode)
  conns : List TagConnection
  start_node : Option String
  tags : List String
  layout_data : LayoutData
  next_id : ℕ

/-- Python dict lookup on the association list. -/
def alookup (k : String) : List (String × α) → Option α
  | [] => none
  | (k', v) :: rest => if k' = k then some v else alookup k rest

/-- In-place mutation of the (unique) entry with key `k`. -/
def aupdate (k : String) (f : α → α) : List (String × α) → List (String × α)
  | [] => []
  | (k', v) :: rest => if k' = k then (k', f v) :: rest else (k', v) :: aupdate k f rest

/-- `set.add` for position tuples: no-op when the value is already present. -/
def insertPos (p : Pos) (l : List Pos) : List Pos :=
  if p ∈ l then l else l ++ [p]

/-- `TagNode.add_edge` (lines 138-139). -/
def add_edge (c : TagConnection) (nd : TagNode) : TagNode :=
  { nd with edges := nd.edges ++ [c] }

/-- `TagNode.set_highlighted` (lines 145-153), reduced to the flag. -/
def set_highlighted (b : Bool) (nd : TagNode) : TagNode :=
  { nd with highlighted := b }

/-- `node.setPos(x, y)`. -/
def set_pos (p : Pos) (nd : TagNode) : TagNode :=
  { nd with pos := p }

/-- A freshly constructed `TagNode(tag_name)` with its allocated object
identity: default item position `(0, 0)`, no edges, normal
(unhighlighted) pen. -/
def newTagNode (i : ℕ) : TagNode := ⟨i, (0, 0), [], false⟩

/-- `TagConnection(a, b, label)` construction plus `addItem` (used both at
line 277 and lines 311-312): `aid`/`bid` are the identities of the two
referenced node objects.  The new object registers itself on both
endpoints' edge lists (`start_node.add_edge(self); end_node.add_edge(self)`;
for `a = b` the same list receives it twice, as in Python). -/
def createConnection (s : TagMapScene) (a : String) (aid : ℕ) (b : String)
    (bid : ℕ) (label : String) : TagMapScene :=
  let c : TagConnection := ⟨s.next_id, a, b, aid, bid, label⟩
  { s with
    nodes := aupdate b (add_edge c) (aupdate a (add_edge c) s.nodes)
    conns := s.conns ++ [c]
    next_id := s.next_id + 1 }

/-- First pass of `populate_scene` (lines 229-243): walk `self.tags`,
create missing nodes, and apply saved positions, collecting the occupied
position set and the placed tag set. -/
def pass1 (L : List (String × Pos)) :
    List String → TagMapScene → List Pos → List String →
    TagMapScene × List Pos × List String
  | [], s, occ, placed => (s, occ, placed)
  | t :: ts, s, occ, placed =>
      let s' :=
        if (alookup t s.nodes).isSome then s
        else { s with nodes := s.nodes ++ [(t, newTagNode s.next_id)],
                      next_id := s.next_id + 1 }
      match alookup t L with
      | some p =>
          pass1 L ts { s' with nodes := aupdate t (set_pos p) s'.nodes }
            (insertPos p occ) (placed ++ [t])
      | none => pass1 L ts s' occ placed

/-- Centroid of the occupied positions (lines 248-256); `(0, 0)` when
there are none. -/
def batch_center (occ : List Pos) : Pos :=
  if occ = [] then (0, 0)
  else ((occ.map Prod.fst).sum / occ.length, (occ.map Prod.snd).sum / occ.length)

/-- `sorted(list(set(self.tags) - placed_tags))` (lines 246 and 258). -/
def sorted_new_tags (tags placed : List String) : List String :=
  ((tags.filter (fun t => t ∉ placed)).dedup).mergeSort (fun a b => decide (a ≤ b))

/-- Second pass of `populate_scene` (lines 258-262): place the new tags
one at a time, each placed position joining the occupied set before the
next placement.  `none` when the modelled spiral fuel runs out. -/
def place_batch (fuel : ℕ) (cx cy : ℝ) :
    List String → TagMapScene → List Pos → Option (TagMapScene × List Pos)
  | [], s, occ => some (s, occ)
  | t :: ts, s, occ =>
      match find_next_available_pos fuel occ cx cy with
      | some p =>
          place_batch fuel cx cy ts
            { s with nodes := aupdate t (set_pos p) s.nodes } (insertPos p occ)
      | none => none

/-- Third pass of `populate_scene` (lines 264-278): rebuild connections
from the saved records.  A record is skipped when either endpoint tag has
no node, or when the start node's edge list already holds an edge whose
`end_node` reference is the very node object currently registered for the
record's end tag (`edge.end_node == end_node` on line 273 is Python
object identity, modelled by comparing object ids; a stale edge whose end
node was removed and re-created under the same tag has a different
`end_node_id` and does not suppress).  The edge list is the node's
`edges` attribute as it stands, including entries whose connection item
is no longer in the scene. -/
def add_connections : List ConnData → TagMapScene → TagMapScene
  | [], s => s
  | cd :: rest, s =>
      match alookup cd.start s.nodes, alookup cd.end_ s.nodes with
      | some sn, some en =>
          if sn.edges.any fun e => e.end_node_id == en.id then add_connections rest s
          else add_connections rest
            (createConnection s cd.start sn.id cd.end_ en.id (cd.label.getD ""))
      | _, _ => add_connections rest s

/-- `TagMapScene.populate_scene` (lines 223-278). -/
def populate_scene (fuel : ℕ) (s : TagMapScene) : Option TagMapScene :=
  let res := pass1 s.layout_data.nodes s.tags s [] []
  let c := batch_center res.2.1
  match place_batch fuel c.1 c.2 (sorted_new_tags s.tags res.2.2) res.1 res.2.1 with
  | none => none
  | some (s2, _) => some (add_connections s.layout_data.connections s2)

/-- `TagMapScene.update_scene` (lines 204-221): store the new tags and
layout (a falsy layout becomes `{}`), drop nodes whose tag disappeared,
remove every `TagConnection` item from the scene — note the node `edges`
lists are left untouched — and repopulate. -/
def update_scene (fuel : ℕ) (s : TagMapScene) (tags : List String)
    (layout_data : Option LayoutData) : Option TagMapScene :=
  let s1 := { s with tags := tags, layout_data := layout_data.getD ⟨[], []⟩ }
  let s2 := { s1 with nodes := s1.nodes.filter (fun kv => kv.1 ∈ tags) }
  let s3 := { s2 with conns := [] }
  populate_scene fuel s3

/-- `TagMapScene.get_layout_data` (lines 280-289): serialize every live
node's position and every scene connection's endpoints and label. -/
def get_layout_data (s : TagMapScene) : LayoutData :=
  ⟨s.nodes.map (fun kv => (kv.1, kv.2.pos)),
   s.conns.map (fun c => ⟨c.start_node, c.end_node, some c.label⟩)⟩

/-- The scene of `TagMapScene.__init__` before its `update_scene` call
(lines 169-173): empty node dict, no pending start. -/
def empty_scene : TagMapScene := ⟨[], [], none, [], ⟨[], []⟩, 0⟩

/-- `TagMapScene(tags, layout_data)`: `__init__` immediately reconciles. -/
def init_scene (fuel : ℕ) (tags : List String) (layout_data : Option LayoutData) :
    Option TagMapScene :=
  update_scene fuel empty_scene tags layout_data

/-- Identity of the scene node object a tag name currently resolves to.
A clicked node is always a live scene item, and between reconciles the
pending start reference is the current node of its name, so in the
histories the gesture theorems quantify over this resolution is exact;
an unresolvable name is given a fresh identity, which, like a reference
to an object no longer in the dict, matches no current node. -/
def node_id_of (s : TagMapScene) (n : String) : ℕ :=
  ((alookup n s.nodes).map TagNode.id).getD s.next_id

/-- `TagMapScene.mousePressEvent` (lines 291-324).  `click` is the node
the press resolves to (the item itself or its parent item; `none` for
empty space), `prompt` is the label dialog's reply in the branch that
opens it (`some label` when confirmed, `none` when cancelled); the dialog
is an external collaborator, so its reply is an input of the model.
Between reconciles the pending start node is the scene's current node of
its name, so the pending reference is kept by name; histories that
interleave `update_scene` with a pending gesture are outside the model. -/
def mousePressEvent (s : TagMapScene) (click : Option String) (prompt : Option String) :
    TagMapScene :=
  match click with
  | some n =>
      match s.start_node with
      | none =>
          { s with nodes := aupdate n (set_highlighted true) s.nodes, start_node := some n }
      | some a =>
          if a ≠ n then
            let s1 := match prompt with
              | some label =>
                  createConnection s a (node_id_of s a) n (node_id_of s n) label
              | none => s
            { s1 with nodes := aupdate a (set_highlighted false) s1.nodes, start_node := none }
          else
            { s with nodes := aupdate a (set_highlighted false) s.nodes, start_node := none }
  | none =>
      match s.start_node with
      | some a =>
          { s with nodes := aupdate a (set_highlighted false) s.nodes, start_node := none }
      | none => s

/-- A sequence of mouse presses, each with the dialog reply it would see. -/
def run_events (s : TagMapScene) : List (Option String × Option String) → TagMapScene
  | [] => s
  | e :: es => run_events (mousePressEvent s e.1 e.2) es

/-- A sequence of tag-set updates as `TagMapWindow.update_tags` performs
them with `layout_data=None` (lines 352-356): each step reconciles against
the layout exported from the current scene. -/
def growth_steps (fuel : ℕ) : TagMapScene → List (List String) → Option TagMapScene
  | s, [] => some s
  | s, tags :: rest =>
      match update_scene fuel s tags (some (get_layout_data s)) with
      | some s2 => growth_steps fuel s2 rest
      | none => none

/-- The no-overlap predicate of the spec: horizontally at least 120 apart
or vertically at least 50 apart (the negation of `collides` for a pair). -/
def no_overlap (p q : Pos) : Prop :=
  120 ≤ |p.1 - q.1| ∨ 50 ≤ |p.2 - q.2|

/-- Keys of the node dict. -/
def keys (l : List (String × α)) : List String := l.map Prod.fst

/-- All nodes carry the normal (unhighlighted) pen. -/
def unhighlighted (l : List (String × TagNode)) : Prop :=
  ∀ k nd, alookup k l = some nd → nd.highlighted = false

/-- The gesture-highlight invariant: a node is highlighted exactly when it
is the scene's pending connection start. -/
def highlight_inv (s : TagMapScene) : Prop :=
  ∀ k nd, alookup k s.nodes = some nd →
    (nd.highlighted = true ↔ s.start_node = some k)

end

/-! ## Theorems -/

/-! ### Association-list helper lemmas -/

theorem alookup_aupdate (k a : String) (f : α → α) (l : List (String × α)) :
    alookup k (aupdate a f l) =
      if a = k then (alookup k l).map f else alookup k l := by
  induction l with
  | nil => by_cases h : a = k <;> simp [alookup, aupdate, h]
  | cons hd tl ih =>
      obtain ⟨k', v⟩ := hd
      by_cases h1 : k' = a
      · subst h1
        by_cases h2 : k' = k
        · subst h2; simp [alookup, aupdate]
        · simp [alookup, aupdate, h2, ih]
      · by_cases h2 : k' = k
        · subst h2
          simp [alookup, aupdate, h1, Ne.symm h1]
        · simp [alookup, aupdate, h1, h2, ih]

theorem alookup_append_some (k : String) (l1 l2 : List (String × α)) (v : α)
    (h : alookup k l1 = some v) : alookup k (l1 ++ l2) = some v := by
  induction l1 with
  | nil => simp [alookup] at h
  | cons hd tl ih =>
      obtain ⟨k', w⟩ := hd
      by_cases h1 : k' = k
      · simp [alookup, h1] at h ⊢; exact h
      · simp [alookup, h1] at h ⊢; exact ih h

theorem alookup_append_none (k : String) (l1 l2 : List (String × α))
    (h : alookup k l1 = none) : alookup k (l1 ++ l2) = alookup k l2 := by
  induction l1 with
  | nil => simp
  | cons hd tl ih =>
      obtain ⟨k', w⟩ := hd
      by_cases h1 : k' = k
      · simp [alookup, h1] at h
      · simp [alookup, h1] at h ⊢; exact ih h

theorem aupdate_keys (a : String) (f : α → α) (l : List (String × α)) :
    keys (aupdate a f l) = keys l := by
  induction l with
  | nil => simp [aupdate]
  | cons hd tl ih =>
      obtain ⟨k', v⟩ := hd
      by_cases h1 : k' = a <;> simp [aupdate, keys, h1] at ih ⊢ <;> exact ih

theorem aupdate_map_of_preserve (a : String) (f : TagNode → TagNode)
    (g : TagNode → β) (l : List (String × TagNode))
    (hf : ∀ nd, g (f nd) = g nd) :
    (aupdate a f l).map (fun kv => g kv.2) = l.map (fun kv => g kv.2) := by
  induction l with
  | nil => simp [aupdate]
  | cons hd tl ih =>
      obtain ⟨k', v⟩ := hd
      by_cases h1 : k' = a <;> simp [aupdate, h1, hf, ih]

theorem alookup_filter (k : String) (tags : List String) (l : List (String × α)) :
    alookup k (l.filter (fun kv => kv.1 ∈ tags)) =
      if k ∈ tags then alookup k l else none := by
  induction l with
  | nil => by_cases h : k ∈ tags <;> simp [alookup, h]
  | cons hd tl ih =>
      obtain ⟨k', v⟩ := hd
      by_cases h1 : k' = k
      · subst h1
        by_cases h2 : k' ∈ tags <;> simp [alookup, List.filter, h2, ih]
      · by_cases h2 : k' ∈ tags <;> simp [alookup, List.filter, h2, h1, ih]

theorem alookup_map_pos (k : String) (l : List (String × TagNode)) :
    alookup k (l.map (fun kv => (kv.1, kv.2.pos))) = (alookup k l).map TagNode.pos := by
  induction l with
  | nil => simp [alookup]
  | cons hd tl ih =>
      obtain ⟨k', v⟩ := hd
      by_cases h1 : k' = k <;> simp [alookup, h1, ih]

theorem alookup_mem_values {k : String} {l : List (String × α)} {v : α}
    (h : alookup k l = some v) : v ∈ l.map Prod.snd := by
  induction l with
  | nil => simp [alookup] at h
  | cons hd tl ih =>
      obtain ⟨k', w⟩ := hd
      by_cases h1 : k' = k
      · simp [alookup, h1] at h; simp [h]
      · simp [alookup, h1] at h; simp [ih h]

/-- Whatever `find_pos_loop` returns does not collide with any occupied
position (it only ever returns the candidate of its non-collision
branch). -/
theorem find_pos_loop_avoids (occ : List Pos) (cx cy : ℝ) :
    ∀ (fuel : ℕ) (r : ℝ) (theta : ℕ) (p : Pos),
      find_pos_loop occ cx cy fuel r theta = some p → ¬ collides occ p.1 p.2 := by
  intro fuel
  induction fuel with
  | zero => intro r theta p h; simp [find_pos_loop] at h
  | succ n ih =>
      intro r theta p h
      rw [find_pos_loop] at h
      by_cases hc : collides occ (cx + r * Real.cos (theta * Real.pi / 180))
          (cy + r * Real.sin (theta * Real.pi / 180))
      · rw [if_pos hc] at h
        by_cases h360 : 360 ≤ theta + 30
        · rw [if_pos h360] at h; exact ih _ _ _ h
        · rw [if_neg h360] at h; exact ih _ _ _ h
      · rw [if_neg hc] at h
        cases h
        exact hc

/-- The position returned by a `find_pos_loop` call whose radius is of the
form `150 + 10 * k` sits at squared distance `(150 + 10 * k')^2` from the
center, for some `k'`. -/
theorem find_pos_loop_radius (occ : List Pos) (cx cy : ℝ) :
    ∀ (fuel : ℕ) (r : ℝ) (theta : ℕ) (p : Pos),
      (∃ k : ℕ, r = 150 + 10 * k) →
      find_pos_loop occ cx cy fuel r theta = some p →
      ∃ k : ℕ, (p.1 - cx) ^ 2 + (p.2 - cy) ^ 2 = (150 + 10 * (k : ℝ)) ^ 2 := by
  intro fuel
  induction fuel with
  | zero => intro r theta p _ h; simp [find_pos_loop] at h
  | succ n ih =>
      intro r theta p hr h
      rw [find_pos_loop] at h
      by_cases hc : collides occ (cx + r * Real.cos (theta * Real.pi / 180))
          (cy + r * Real.sin (theta * Real.pi / 180))
      · rw [if_pos hc] at h
        by_cases h360 : 360 ≤ theta + 30
        · rw [if_pos h360] at h
          obtain ⟨k, hk⟩ := hr
          exact ih _ _ _ ⟨k + 1, by push_cast [hk]; ring⟩ h
        · rw [if_neg h360] at h
          exact ih _ _ _ hr h
      · rw [if_neg hc] at h
        cases h
        obtain ⟨k, hk⟩ := hr
        refine ⟨k, ?_⟩
        have htrig := Real.sin_sq_add_cos_sq ((theta : ℝ) * Real.pi / 180)
        simp only []
        rw [hk] at *
        nlinarith [htrig]

/-! ### Scene-level claims -/

/-- C1: evaluation of the code at the failing input.  From a scene built
over tags `a, b` with one saved connection, a reconcile with the scene's
own exported layout silently loses the connection: the first scene holds
one connection and exports one record, but after `update_scene` with that
very export the scene holds none (node positions are preserved).  The
cause: `update_scene` removes the `TagConnection` items without clearing
the nodes' `edges` lists, so the duplicate check of `populate_scene` sees
the stale edge, whose end reference is still the live `b` object, and
skips recreation, contradicting the code's own comment "Remove all
connections, they will be recreated". -/
theorem reconcile_loses_connections :
    ∃ s1 s2,
      init_scene 0 ["a", "b"]
          (some ⟨[("a", (0, 0)), ("b", (200, 0))], [⟨"a", "b", some "l"⟩]⟩) = some s1 ∧
      s1.conns.length = 1 ∧
      (get_layout_data s1).connections.length = 1 ∧
      update_scene 0 s1 ["a", "b"] (some (get_layout_data s1)) = some s2 ∧
      s2.conns = [] ∧
      (get_layout_data s2).connections = [] ∧
      (∀ k nd1 nd2, alookup k s1.nodes = some nd1 → alookup k s2.nodes = some nd2 →
        nd2.pos = nd1.pos) := by
  refine ⟨⟨[("a", ⟨0, (0, 0), [⟨2, "a", "b", 0, 1, "l"⟩], false⟩),
            ("b", ⟨1, (200, 0), [⟨2, "a", "b", 0, 1, "l"⟩], false⟩)],
           [⟨2, "a", "b", 0, 1, "l"⟩], none, ["a", "b"],
           ⟨[("a", (0, 0)), ("b", (200, 0))], [⟨"a", "b", some "l"⟩]⟩, 3⟩,
         ⟨[("a", ⟨0, (0, 0), [⟨2, "a", "b", 0, 1, "l"⟩], false⟩),
            ("b", ⟨1, (200, 0), [⟨2, "a", "b", 0, 1, "l"⟩], false⟩)],
           [], none, ["a", "b"],
           ⟨[("a", (0, 0)), ("b", (200, 0))], [⟨"a", "b", some "l"⟩]⟩, 3⟩,
         ?_, by norm_num, ?_, ?_, rfl, by norm_num [get_layout_data], ?_⟩
  · norm_num +decide [init_scene, update_scene, populate_scene, pass1, alookup, aupdate,
      insertPos, batch_center, sorted_new_tags, place_batch, add_connections,
      createConnection, add_edge, set_pos, newTagNode, empty_scene, Prod.ext_iff]
  · norm_num [get_layout_data]
  · norm_num +decide [update_scene, populate_scene, pass1, alookup, aupdate,
      insertPos, batch_center, sorted_new_tags, place_batch, add_connections,
      createConnection, add_edge, set_pos, newTagNode, get_layout_data, Prod.ext_iff]
  · intro k nd1 nd2 h1 h2
    by_cases ha : ("a" : String) = k
    · simp [alookup, ha] at h1 h2
      rw [← h1, ← h2]
    · by_cases hb : ("b" : String) = k
      · simp [alookup, ha, hb] at h1 h2
        rw [← h1, ← h2]
      · simp [alookup, ha, hb] at h1

/-- C2, counterexample, in two parts.  First, the duplicate check only
looks at same-direction records, so loading `a -> b` and then `b -> a`
creates two connections between the same unordered pair of nodes: the
claimed "exactly one Connection between A and B" is false.  Second, the
check compares node object identity, so it does not survive node
re-creation: after tag `b` is removed and re-added, loading `a -> b`
again creates a new edge even though `a`'s edge list still holds a stale
same-direction edge (its end reference, `end_node_id = 1`, is the dead
`b` object, not the re-created one with identity 3). -/
theorem reversed_duplicate_connection_created :
    (∃ s, init_scene 0 ["a", "b"]
        (some ⟨[("a", (0, 0)), ("b", (200, 0))],
               [⟨"a", "b", some ""⟩, ⟨"b", "a", some ""⟩]⟩) = some s ∧
      s.conns = [⟨2, "a", "b", 0, 1, ""⟩, ⟨3, "b", "a", 1, 0, ""⟩]) ∧
    (∃ u1 u2 u3, init_scene 0 ["a", "b"]
        (some ⟨[("a", (0, 0)), ("b", (200, 0))], [⟨"a", "b", some ""⟩]⟩) = some u1 ∧
      u1.conns = [⟨2, "a", "b", 0, 1, ""⟩] ∧
      update_scene 0 u1 ["a"] (some (get_layout_data u1)) = some u2 ∧
      update_scene 0 u2 ["a", "b"]
          (some ⟨[("a", (0, 0)), ("b", (200, 0))], [⟨"a", "b", some ""⟩]⟩) = some u3 ∧
      u3.conns = [⟨4, "a", "b", 0, 3, ""⟩]) := by
  constructor
  · refine ⟨⟨[("a", ⟨0, (0, 0), [⟨2, "a", "b", 0, 1, ""⟩, ⟨3, "b", "a", 1, 0, ""⟩], false⟩),
              ("b", ⟨1, (200, 0), [⟨2, "a", "b", 0, 1, ""⟩, ⟨3, "b", "a", 1, 0, ""⟩], false⟩)],
             [⟨2, "a", "b", 0, 1, ""⟩, ⟨3, "b", "a", 1, 0, ""⟩], none, ["a", "b"],
             ⟨[("a", (0, 0)), ("b", (200, 0))],
              [⟨"a", "b", some ""⟩, ⟨"b", "a", some ""⟩]⟩, 4⟩,
           ?_, rfl⟩
    norm_num +decide [init_scene, update_scene, populate_scene, pass1, alookup, aupdate,
      insertPos, batch_center, sorted_new_tags, place_batch, add_connections,
      createConnection, add_edge, set_pos, newTagNode, empty_scene, Prod.ext_iff]
  · refine ⟨⟨[("a", ⟨0, (0, 0), [⟨2, "a", "b", 0, 1, ""⟩], false⟩),
              ("b", ⟨1, (200, 0), [⟨2, "a", "b", 0, 1, ""⟩], false⟩)],
             [⟨2, "a", "b", 0, 1, ""⟩], none, ["a", "b"],
             ⟨[("a", (0, 0)), ("b", (200, 0))], [⟨"a", "b", some ""⟩]⟩, 3⟩,
           ⟨[("a", ⟨0, (0, 0), [⟨2, "a", "b", 0, 1, ""⟩], false⟩)],
             [], none, ["a"],
             ⟨[("a", (0, 0)), ("b", (200, 0))], [⟨"a", "b", some ""⟩]⟩, 3⟩,
           ⟨[("a", ⟨0, (0, 0), [⟨2, "a", "b", 0, 1, ""⟩, ⟨4, "a", "b", 0, 3, ""⟩], false⟩),
              ("b", ⟨3, (200, 0), [⟨4, "a", "b", 0, 3, ""⟩], false⟩)],
             [⟨4, "a", "b", 0, 3, ""⟩], none, ["a", "b"],
             ⟨[("a", (0, 0)), ("b", (200, 0))], [⟨"a", "b", some ""⟩]⟩, 5⟩,
           ?_, rfl, ?_, ?_, rfl⟩
    · norm_num +decide [init_scene, update_scene, populate_scene, pass1, alookup, aupdate,
        insertPos, batch_center, sorted_new_tags, place_batch, add_connections,
        createConnection, add_edge, set_pos, newTagNode, empty_scene, Prod.ext_iff]
    · norm_num +decide [update_scene, populate_scene, pass1, alookup, aupdate,
        insertPos, batch_center, sorted_new_tags, place_batch, add_connections,
        createConnection, add_edge, set_pos, newTagNode, get_layout_data, Prod.ext_iff]
    · norm_num +decide [update_scene, populate_scene, pass1, alookup, aupdate,
        insertPos, batch_center, sorted_new_tags, place_batch, add_connections,
        createConnection, add_edge, set_pos, newTagNode, get_layout_data, Prod.ext_iff]

/-- C2, amended: the suppression that does exist.  A loaded record is
skipped exactly when the start node's edge list holds an edge whose end
reference is the node object currently registered for the record's end
tag (same direction, same surviving object); reversed records, records
whose stale edges reference a removed-and-re-created node, and the
two-click gesture are not suppressed. -/
theorem add_connections_skips_same_direction (cd : ConnData) (rest : List ConnData)
    (s : TagMapScene) (sn en : TagNode)
    (h1 : alookup cd.start s.nodes = some sn)
    (h2 : alookup cd.end_ s.nodes = some en)
    (h3 : ∃ e ∈ sn.edges, e.end_node_id = en.id) :
    add_connections (cd :: rest) s = add_connections rest s := by
  have hany : (sn.edges.any fun e => e.end_node_id == en.id) = true := by
    rw [List.any_eq_true]
    obtain ⟨e, he, hee⟩ := h3
    exact ⟨e, he, by simp [hee]⟩
  simp [add_connections, h1, h2, hany]

/-- Witness for the amended C2 on a concrete scene already holding an
`a -> b` edge whose end reference is the current `b` object. -/
theorem add_connections_skips_same_direction_witness :
    alookup "a" [("a", (⟨0, (0, 0), [⟨2, "a", "b", 0, 1, ""⟩], false⟩ : TagNode)),
                 ("b", (⟨1, (1, 1), [⟨2, "a", "b", 0, 1, ""⟩], false⟩ : TagNode))] =
      some ⟨0, (0, 0), [⟨2, "a", "b", 0, 1, ""⟩], false⟩ ∧
    (∃ e ∈ ([⟨2, "a", "b", 0, 1, ""⟩] : List TagConnection),
      e.end_node_id = (⟨1, (1, 1), [⟨2, "a", "b", 0, 1, ""⟩], false⟩ : TagNode).id) ∧
    add_connections [⟨"a", "b", some "x"⟩]
        ⟨[("a", ⟨0, (0, 0), [⟨2, "a", "b", 0, 1, ""⟩], false⟩),
          ("b", ⟨1, (1, 1), [⟨2, "a", "b", 0, 1, ""⟩], false⟩)],
         [⟨2, "a", "b", 0, 1, ""⟩], none, ["a", "b"], ⟨[], []⟩, 3⟩ =
      add_connections []
        ⟨[("a", ⟨0, (0, 0), [⟨2, "a", "b", 0, 1, ""⟩], false⟩),
          ("b", ⟨1, (1, 1), [⟨2, "a", "b", 0, 1, ""⟩], false⟩)],
         [⟨2, "a", "b", 0, 1, ""⟩], none, ["a", "b"], ⟨[], []⟩, 3⟩ := by
  have hl : alookup "a" [("a", (⟨0, (0, 0), [⟨2, "a", "b", 0, 1, ""⟩], false⟩ : TagNode)),
      ("b", (⟨1, (1, 1), [⟨2, "a", "b", 0, 1, ""⟩], false⟩ : TagNode))] =
      some ⟨0, (0, 0), [⟨2, "a", "b", 0, 1, ""⟩], false⟩ := by
    simp +decide [alookup]
  have hl2 : alookup "b" [("a", (⟨0, (0, 0), [⟨2, "a", "b", 0, 1, ""⟩], false⟩ : TagNode)),
      ("b", (⟨1, (1, 1), [⟨2, "a", "b", 0, 1, ""⟩], false⟩ : TagNode))] =
      some ⟨1, (1, 1), [⟨2, "a", "b", 0, 1, ""⟩], false⟩ := by
    simp +decide [alookup]
  have he : ∃ e ∈ ([⟨2, "a", "b", 0, 1, ""⟩] : List TagConnection),
      e.end_node_id = (⟨1, (1, 1), [⟨2, "a", "b", 0, 1, ""⟩], false⟩ : TagNode).id :=
    ⟨⟨2, "a", "b", 0, 1, ""⟩, by simp, rfl⟩
  exact ⟨hl, he,
    add_connections_skips_same_direction ⟨"a", "b", some "x"⟩ [] _ _ _ hl hl2 he⟩

/-- C5, counterexample: `populate_scene` has no self-loop guard, so
deserializing a saved record whose `start` and `end` are the same tag
creates a self-loop connection (both endpoint references are the same
node object, identity 0); "for every Connection that ever exists in the
scene ... endpoints are distinct" is false. -/
theorem self_loop_created_by_load :
    ∃ s, init_scene 0 ["a"] (some ⟨[("a", (0, 0))], [⟨"a", "a", some "x"⟩]⟩) = some s ∧
      s.conns = [⟨1, "a", "a", 0, 0, "x"⟩] ∧
      (⟨1, "a", "a", 0, 0, "x"⟩ : TagConnection).start_node =
        (⟨1, "a", "a", 0, 0, "x"⟩ : TagConnection).end_node ∧
      (⟨1, "a", "a", 0, 0, "x"⟩ : TagConnection).start_node_id =
        (⟨1, "a", "a", 0, 0, "x"⟩ : TagConnection).end_node_id := by
  refine ⟨⟨[("a", ⟨0, (0, 0), [⟨1, "a", "a", 0, 0, "x"⟩, ⟨1, "a", "a", 0, 0, "x"⟩], false⟩)],
           [⟨1, "a", "a", 0, 0, "x"⟩], none, ["a"],
           ⟨[("a", (0, 0))], [⟨"a", "a", some "x"⟩]⟩, 2⟩, ?_, rfl, rfl, rfl⟩
  norm_num +decide [init_scene, update_scene, populate_scene, pass1, alookup, aupdate,
    insertPos, batch_center, sorted_new_tags, place_batch, add_connections,
    createConnection, add_edge, set_pos, newTagNode, empty_scene, Prod.ext_iff]

/-- C5, amended: the two-click gesture alone never creates a self-loop;
every connection added by `mousePressEvent` has distinct endpoint nodes
(the guard `start_node != node`). -/
theorem mouse_press_no_self_loop (s : TagMapScene) (click prompt : Option String)
    (c : TagConnection) (hc : c ∈ (mousePressEvent s click prompt).conns)
    (hnew : c ∉ s.conns) : c.start_node ≠ c.end_node := by
  cases hcl : click with
  | none =>
      rw [hcl] at hc
      cases hsn : s.start_node with
      | none =>
          have h : (mousePressEvent s none prompt).conns = s.conns := by
            simp [mousePressEvent, hsn]
          exact absurd (h ▸ hc) hnew
      | some a =>
          have h : (mousePressEvent s none prompt).conns = s.conns := by
            simp [mousePressEvent, hsn]
          exact absurd (h ▸ hc) hnew
  | some n =>
      rw [hcl] at hc
      cases hsn : s.start_node with
      | none =>
          have h : (mousePressEvent s (some n) prompt).conns = s.conns := by
            simp [mousePressEvent, hsn]
          exact absurd (h ▸ hc) hnew
      | some a =>
          by_cases hab : a = n
          · subst hab
            have h : (mousePressEvent s (some a) prompt).conns = s.conns := by
              simp [mousePressEvent, hsn]
            exact absurd (h ▸ hc) hnew
          · cases hpr : prompt with
            | none =>
                rw [hpr] at hc
                have h : (mousePressEvent s (some n) none).conns = s.conns := by
                  simp [mousePressEvent, hsn, hab]
                exact absurd (h ▸ hc) hnew
            | some label =>
                rw [hpr] at hc
                have h : (mousePressEvent s (some n) (some label)).conns =
                    s.conns ++
                      [⟨s.next_id, a, n, node_id_of s a, node_id_of s n, label⟩] := by
                  simp [mousePressEvent, hsn, hab, createConnection]
                rw [h] at hc
                rcases List.mem_append.mp hc with hold | hnw
                · exact absurd hold hnew
                · rw [List.mem_singleton] at hnw
                  subst hnw
                  simpa using hab

/-- Witness for the amended C5: a confirmed gesture from pending start
`a` onto node `b` creates the connection `(a, b)`, whose endpoints the
theorem proves distinct. -/
theorem mouse_press_no_self_loop_witness :
    (⟨2, "a", "b", 0, 1, "x"⟩ : TagConnection) ∈
      (mousePressEvent
        ⟨[("a", ⟨0, (0, 0), [], true⟩), ("b", ⟨1, (1, 1), [], false⟩)],
         [], some "a", ["a", "b"], ⟨[], []⟩, 2⟩
        (some "b") (some "x")).conns ∧
    (⟨2, "a", "b", 0, 1, "x"⟩ : TagConnection) ∉ ([] : List TagConnection) ∧
    (⟨2, "a", "b", 0, 1, "x"⟩ : TagConnection).start_node ≠
      (⟨2, "a", "b", 0, 1, "x"⟩ : TagConnection).end_node := by
  have hc : (⟨2, "a", "b", 0, 1, "x"⟩ : TagConnection) ∈
      (mousePressEvent
        ⟨[("a", ⟨0, (0, 0), [], true⟩), ("b", ⟨1, (1, 1), [], false⟩)],
         [], some "a", ["a", "b"], ⟨[], []⟩, 2⟩
        (some "b") (some "x")).conns := by
    simp +decide [mousePressEvent, createConnection, node_id_of, alookup, aupdate,
      set_highlighted, add_edge]
  exact ⟨hc, by simp,
    mouse_press_no_self_loop _ (some "b") (some "x") _ hc (by simp)⟩

/-- C6: gesture atomicity at the label prompt.  In state
`PendingStart(a)`, a click on a different node `b` with the prompt
cancelled creates no connection, clears the highlight on `a` (the node
map changes only by that flag), and returns the state to idle; with the
prompt confirmed, exactly the connection `(a, b, label)` (referencing the
current `a` and `b` node objects) is appended and registered on both
endpoints, the highlight is likewise cleared and the state returns to
idle. -/
theorem gesture_prompt_atomic (s : TagMapScene) (a b : String)
    (ha : s.start_node = some a) (hab : a ≠ b) :
    ((mousePressEvent s (some b) none).conns = s.conns ∧
     (mousePressEvent s (some b) none).start_node = none ∧
     (mousePressEvent s (some b) none).nodes = aupdate a (set_highlighted false) s.nodes ∧
     (∀ nd, alookup a (mousePressEvent s (some b) none).nodes = some nd →
        nd.highlighted = false)) ∧
    (∀ label,
      (mousePressEvent s (some b) (some label)).conns =
        s.conns ++ [⟨s.next_id, a, b, node_id_of s a, node_id_of s b, label⟩] ∧
      (mousePressEvent s (some b) (some label)).start_node = none ∧
      (mousePressEvent s (some b) (some label)).nodes =
        aupdate a (set_highlighted false)
          (aupdate b (add_edge ⟨s.next_id, a, b, node_id_of s a, node_id_of s b, label⟩)
            (aupdate a (add_edge ⟨s.next_id, a, b, node_id_of s a, node_id_of s b, label⟩)
              s.nodes)) ∧
      (∀ nd, alookup a (mousePressEvent s (some b) (some label)).nodes = some nd →
        nd.highlighted = false)) := by
  have hnodes0 : (mousePressEvent s (some b) none).nodes =
      aupdate a (set_highlighted false) s.nodes := by
    simp [mousePressEvent, ha, hab]
  refine ⟨⟨by simp [mousePressEvent, ha, hab], by simp [mousePressEvent, ha, hab],
      hnodes0, ?_⟩, fun label => ?_⟩
  · intro nd hnd
    rw [hnodes0, alookup_aupdate, if_pos rfl] at hnd
    cases h0 : alookup a s.nodes with
    | none => rw [h0] at hnd; simp at hnd
    | some nd0 =>
        rw [h0, Option.map_some'] at hnd
        cases hnd
        rfl
  · have hnodes1 : (mousePressEvent s (some b) (some label)).nodes =
        aupdate a (set_highlighted false)
          (aupdate b (add_edge ⟨s.next_id, a, b, node_id_of s a, node_id_of s b, label⟩)
            (aupdate a (add_edge ⟨s.next_id, a, b, node_id_of s a, node_id_of s b, label⟩)
              s.nodes)) := by
      simp [mousePressEvent, ha, hab, createConnection]
    refine ⟨by simp [mousePressEvent, ha, hab, createConnection],
      by simp [mousePressEvent, ha, hab, createConnection], hnodes1, ?_⟩
    intro nd hnd
    rw [hnodes1, alookup_aupdate, if_pos rfl] at hnd
    cases h0 : alookup a
        (aupdate b (add_edge ⟨s.next_id, a, b, node_id_of s a, node_id_of s b, label⟩)
          (aupdate a (add_edge ⟨s.next_id, a, b, node_id_of s a, node_id_of s b, label⟩)
            s.nodes)) with
    | none => rw [h0] at hnd; simp at hnd
    | some nd0 =>
        rw [h0, Option.map_some'] at hnd
        cases hnd
        rfl

/-- Witness for C6 on a two-node scene pending at `a`. -/
theorem gesture_prompt_atomic_witness :
    (⟨[("a", ⟨0, (0, 0), [], true⟩), ("b", ⟨1, (5, 5), [], false⟩)], [], some "a",
        ["a", "b"], ⟨[], []⟩, 2⟩ : TagMapScene).start_node = some "a" ∧
    ("a" : String) ≠ "b" ∧
    ((mousePressEvent ⟨[("a", ⟨0, (0, 0), [], true⟩), ("b", ⟨1, (5, 5), [], false⟩)], [],
        some "a", ["a", "b"], ⟨[], []⟩, 2⟩ (some "b") none).conns = [] ∧
     (mousePressEvent ⟨[("a", ⟨0, (0, 0), [], true⟩), ("b", ⟨1, (5, 5), [], false⟩)], [],
        some "a", ["a", "b"], ⟨[], []⟩, 2⟩ (some "b") none).start_node = none) := by
  have h := gesture_prompt_atomic
    ⟨[("a", ⟨0, (0, 0), [], true⟩), ("b", ⟨1, (5, 5), [], false⟩)], [], some "a",
      ["a", "b"], ⟨[], []⟩, 2⟩ "a" "b" rfl (by decide)
  exact ⟨rfl, by decide, h.1.1, h.1.2.1⟩

/-- C8: a saved connection record with both endpoint tags present but no
"label" field is not dropped: the connection is created with the empty
string as its label. -/
theorem missing_label_connection_created (cd : ConnData) (rest : List ConnData)
    (s : TagMapScene) (sn en : TagNode)
    (h1 : alookup cd.start s.nodes = some sn)
    (h2 : alookup cd.end_ s.nodes = some en)
    (h3 : ∀ e ∈ sn.edges, e.end_node_id ≠ en.id)
    (h4 : cd.label = none) :
    add_connections (cd :: rest) s =
      add_connections rest (createConnection s cd.start sn.id cd.end_ en.id "") ∧
    (createConnection s cd.start sn.id cd.end_ en.id "").conns =
      s.conns ++ [⟨s.next_id, cd.start, cd.end_, sn.id, en.id, ""⟩] := by
  have hany : (sn.edges.any fun e => e.end_node_id == en.id) = false := by
    rw [List.any_eq_false]
    intro e he
    simp [h3 e he]
  exact ⟨by simp [add_connections, h1, h2, hany, h4], by simp [createConnection]⟩

/-- Witness for C8: a record `{start: a, end: b}` with no label. -/
theorem missing_label_connection_created_witness :
    alookup "a" [("a", (⟨0, (0, 0), [], false⟩ : TagNode)),
                 ("b", (⟨1, (5, 5), [], false⟩ : TagNode))] =
      some ⟨0, (0, 0), [], false⟩ ∧
    (⟨"a", "b", none⟩ : ConnData).label = none ∧
    add_connections [⟨"a", "b", none⟩]
        ⟨[("a", ⟨0, (0, 0), [], false⟩), ("b", ⟨1, (5, 5), [], false⟩)], [], none,
          ["a", "b"], ⟨[], []⟩, 2⟩ =
      add_connections []
        (createConnection
          ⟨[("a", ⟨0, (0, 0), [], false⟩), ("b", ⟨1, (5, 5), [], false⟩)], [], none,
            ["a", "b"], ⟨[], []⟩, 2⟩ "a" 0 "b" 1 "") ∧
    (createConnection
        ⟨[("a", ⟨0, (0, 0), [], false⟩), ("b", ⟨1, (5, 5), [], false⟩)], [], none,
          ["a", "b"], ⟨[], []⟩, 2⟩ "a" 0 "b" 1 "").conns =
      [⟨2, "a", "b", 0, 1, ""⟩] := by
  have h1 : alookup "a" [("a", (⟨0, (0, 0), [], false⟩ : TagNode)),
      ("b", (⟨1, (5, 5), [], false⟩ : TagNode))] = some ⟨0, (0, 0), [], false⟩ := by
    simp +decide [alookup]
  have h2 : alookup "b" [("a", (⟨0, (0, 0), [], false⟩ : TagNode)),
      ("b", (⟨1, (5, 5), [], false⟩ : TagNode))] = some ⟨1, (5, 5), [], false⟩ := by
    simp +decide [alookup]
  have h := missing_label_connection_created ⟨"a", "b", none⟩ []
    ⟨[("a", ⟨0, (0, 0), [], false⟩), ("b", ⟨1, (5, 5), [], false⟩)], [], none,
      ["a", "b"], ⟨[], []⟩, 2⟩ _ _ h1 h2 (by simp) rfl
  exact ⟨h1, rfl, h.1, by rw [h.2]; rfl⟩

/-! ### No-overlap helper lemmas (C3) -/

theorem no_overlap_symm {p q : Pos} (h : no_overlap p q) : no_overlap q p := by
  rw [no_overlap] at h ⊢
  rwa [abs_sub_comm q.1 p.1, abs_sub_comm q.2 p.2]

theorem no_overlap_irrefl (p : Pos) : ¬ no_overlap p p := by
  intro h
  rcases h with h | h <;> rw [sub_self, abs_zero] at h <;> norm_num at h

theorem find_next_available_pos_avoids (fuel : ℕ) (occ : List Pos) (cx cy : ℝ)
    (p : Pos) (h : find_next_available_pos fuel occ cx cy = some p) :
    ∀ q ∈ occ, no_overlap q p := by
  have hnc := find_pos_loop_avoids occ cx cy fuel 150 0 p h
  intro q hq
  rw [collides] at hnc
  push_neg at hnc
  have h2 := hnc q hq
  rw [no_overlap]
  rcases lt_or_ge |q.1 - p.1| 120 with hlt | hge
  · exact Or.inr (h2 hlt)
  · exact Or.inl hge

theorem alookup_mem_keys {k : String} {l : List (String × α)} {v : α}
    (h : alookup k l = some v) : k ∈ keys l := by
  induction l with
  | nil => simp [alookup] at h
  | cons hd tl ih =>
      obtain ⟨k', w⟩ := hd
      by_cases h1 : k' = k
      · simp [keys, h1]
      · simp only [alookup, if_neg h1] at h
        simp [keys] at ih ⊢
        exact Or.inr (ih h)

theorem alookup_of_mem_nodup {l : List (String × α)} {k : String} {v : α}
    (hnd : (keys l).Nodup) (h : (k, v) ∈ l) : alookup k l = some v := by
  induction l with
  | nil => simp at h
  | cons hd tl ih =>
      obtain ⟨k', w⟩ := hd
      rw [keys, List.map_cons, List.nodup_cons] at hnd
      rcases List.mem_cons.mp h with heq | htl
      · cases heq
        simp [alookup]
      · have hk : k' ≠ k := by
          intro he
          exact hnd.1 (he ▸ (List.mem_map.mpr ⟨(k, v), htl, rfl⟩))
        rw [alookup, if_neg hk]
        exact ih hnd.2 htl

theorem values_pairwise_alookup {L : List (String × Pos)} {k1 k2 : String}
    {v1 v2 : Pos} (hpw : (L.map Prod.snd).Pairwise no_overlap) (hne : k1 ≠ k2)
    (h1 : alookup k1 L = some v1) (h2 : alookup k2 L = some v2) :
    no_overlap v1 v2 := by
  induction L with
  | nil => simp [alookup] at h1
  | cons hd tl ih =>
      obtain ⟨k, v⟩ := hd
      rw [List.map_cons, List.pairwise_cons] at hpw
      by_cases hk1 : k = k1
      · rw [alookup, if_pos hk1] at h1
        cases h1
        have hk2 : k ≠ k2 := hk1 ▸ hne
        rw [alookup, if_neg hk2] at h2
        exact hpw.1 v2 (alookup_mem_values h2)
      · rw [alookup, if_neg hk1] at h1
        by_cases hk2 : k = k2
        · rw [alookup, if_pos hk2] at h2
          cases h2
          exact no_overlap_symm (hpw.1 v1 (alookup_mem_values h1))
        · rw [alookup, if_neg hk2] at h2
          exact ih hpw.2 h1 h2

theorem pairwise_pos_of_alookup :
    ∀ (l : List (String × TagNode)), (keys l).Nodup →
      (∀ k1 k2 nd1 nd2, k1 ≠ k2 → alookup k1 l = some nd1 →
        alookup k2 l = some nd2 → no_overlap nd1.pos nd2.pos) →
      (l.map (fun kv => kv.2.pos)).Pairwise no_overlap := by
  intro l
  induction l with
  | nil => intro _ _; simp
  | cons hd tl ih =>
      intro hnd h
      obtain ⟨k, nd⟩ := hd
      rw [keys, List.map_cons, List.nodup_cons] at hnd
      rw [List.map_cons, List.pairwise_cons]
      constructor
      · intro x hx
        obtain ⟨⟨k2, nd2⟩, hmem, hx2⟩ := List.mem_map.mp hx
        subst hx2
        have hk2mem : k2 ∈ keys tl := List.mem_map.mpr ⟨(k2, nd2), hmem, rfl⟩
        have hne : k ≠ k2 := fun he => hnd.1 (he ▸ hk2mem)
        have hl1 : alookup k ((k, nd) :: tl) = some nd := by simp [alookup]
        have hl2 : alookup k2 ((k, nd) :: tl) = some nd2 := by
          rw [alookup, if_neg hne]
          exact alookup_of_mem_nodup hnd.2 hmem
        exact h k k2 nd nd2 hne hl1 hl2
      · refine ih hnd.2 (fun k1 k2 nd1 nd2 hne h1 h2 => ?_)
        have hm1 : k ≠ k1 := fun he => hnd.1 (he ▸ alookup_mem_keys h1)
        have hm2 : k ≠ k2 := fun he => hnd.1 (he ▸ alookup_mem_keys h2)
        exact h k1 k2 nd1 nd2 hne
          (by rw [alookup, if_neg hm1]; exact h1)
          (by rw [alookup, if_neg hm2]; exact h2)

theorem mem_sorted_new_tags {k : String} {tags placed : List String} :
    k ∈ sorted_new_tags tags placed ↔ k ∈ tags ∧ k ∉ placed := by
  rw [sorted_new_tags, List.mem_mergeSort, List.mem_dedup, List.mem_filter]
  simp

theorem keys_map_pos (l : List (String × TagNode)) :
    keys (l.map (fun kv => (kv.1, kv.2.pos))) = keys l := by
  simp [keys, List.map_map]

theorem values_map_pos (l : List (String × TagNode)) :
    (l.map (fun kv => (kv.1, kv.2.pos))).map Prod.snd =
      l.map (fun kv => kv.2.pos) := by
  simp [List.map_map]

theorem mem_insertPos {x p : Pos} {occ : List Pos} :
    x ∈ insertPos p occ ↔ x ∈ occ ∨ x = p := by
  rw [insertPos]
  by_cases h : p ∈ occ
  · rw [if_pos h]
    constructor
    · exact Or.inl
    · rintro (hx | hx)
      · exact hx
      · exact hx ▸ h
  · rw [if_neg h]
    simp

theorem insertPos_pairwise {p : Pos} {occ : List Pos}
    (hocc : occ.Pairwise no_overlap) (hp : ∀ q ∈ occ, q ≠ p → no_overlap q p) :
    (insertPos p occ).Pairwise no_overlap := by
  rw [insertPos]
  by_cases h : p ∈ occ
  · rwa [if_pos h]
  · rw [if_neg h, List.pairwise_append]
    refine ⟨hocc, List.pairwise_singleton _ _, fun q hq b hb => ?_⟩
    rw [List.mem_singleton] at hb
    subst hb
    exact hp q hq (fun he => h (he ▸ hq))

theorem mem_keys_alookup_isSome {k : String} {l : List (String × α)}
    (h : k ∈ keys l) : (alookup k l).isSome = true := by
  induction l with
  | nil => simp [keys] at h
  | cons hd tl ih =>
      obtain ⟨k', v⟩ := hd
      by_cases h1 : k' = k
      · simp [alookup, h1]
      · rw [keys, List.map_cons, List.mem_cons] at h
        rcases h with h | h
        · exact absurd h.symm h1
        · rw [alookup, if_neg h1]
          exact ih h

theorem alookup_none_not_mem_keys {k : String} {l : List (String × α)}
    (h : alookup k l = none) : k ∉ keys l := by
  intro hmem
  have h2 := mem_keys_alookup_isSome hmem
  rw [h] at h2
  simp at h2

theorem alookup_append_single_ne {k t : String} {v : α} {l : List (String × α)}
    (h : t ≠ k) : alookup k (l ++ [(t, v)]) = alookup k l := by
  cases h0 : alookup k l with
  | some w => exact alookup_append_some _ _ _ _ h0
  | none =>
      rw [alookup_append_none _ _ _ h0, alookup, if_neg h, alookup]

theorem alookup_append_single_self {t : String} {v : α} {l : List (String × α)}
    (h : alookup t l = none) : alookup t (l ++ [(t, v)]) = some v := by
  rw [alookup_append_none _ _ _ h, alookup, if_pos rfl]

theorem keys_append_single (t : String) (v : α) (l : List (String × α)) :
    keys (l ++ [(t, v)]) = keys l ++ [t] := by
  simp [keys]

theorem no_overlap_symmetric : Symmetric no_overlap := fun _ _ h => no_overlap_symm h

/-- The pass1 invariant of the growth setting: when every saved position
agrees with the current position of the node of the same tag (as it does
when the layout is the scene's own export), the first pass leaves every
node either carrying exactly its saved position or having no saved
position at all, and the occupied set collects saved positions only, so
it stays pairwise non-overlapping whenever the saved positions are. -/
theorem pass1_growth (L : List (String × Pos)) (tags0 : List String)
    (HLpw : (L.map Prod.snd).Pairwise no_overlap) :
    ∀ (ts : List String) (sc : TagMapScene) (occ : List Pos) (placed : List String),
      (∀ u ∈ ts, u ∈ tags0) →
      (keys sc.nodes).Nodup →
      (∀ k nd, alookup k sc.nodes = some nd →
        alookup k L = some nd.pos ∨ k ∈ ts ∨ alookup k L = none) →
      (∀ k nd, alookup k sc.nodes = some nd → k ∈ tags0) →
      (∀ x ∈ occ, x ∈ L.map Prod.snd) →
      occ.Pairwise no_overlap →
      (∀ u ∈ placed, (alookup u L).isSome = true) →
      (∀ k nd, alookup k sc.nodes = some nd → k ∉ ts →
        alookup k L = none ∨ nd.pos ∈ occ) →
      ((keys (pass1 L ts sc occ placed).1.nodes).Nodup ∧
       (∀ k nd, alookup k (pass1 L ts sc occ placed).1.nodes = some nd →
         alookup k L = some nd.pos ∨ alookup k L = none) ∧
       (∀ k nd, alookup k (pass1 L ts sc occ placed).1.nodes = some nd → k ∈ tags0) ∧
       (∀ x ∈ (pass1 L ts sc occ placed).2.1, x ∈ L.map Prod.snd) ∧
       (pass1 L ts sc occ placed).2.1.Pairwise no_overlap ∧
       (∀ u ∈ (pass1 L ts sc occ placed).2.2, (alookup u L).isSome = true) ∧
       (∀ k nd, alookup k (pass1 L ts sc occ placed).1.nodes = some nd →
         alookup k L = none ∨ nd.pos ∈ (pass1 L ts sc occ placed).2.1)) := by
  intro ts
  induction ts with
  | nil =>
      intro sc occ placed _ hnd hC htag hoccL hoccP hplaced hG
      rw [pass1]
      refine ⟨hnd, ?_, htag, hoccL, hoccP, hplaced, ?_⟩
      · intro k nd h
        rcases hC k nd h with h1 | h1 | h1
        · exact Or.inl h1
        · simp at h1
        · exact Or.inr h1
      · intro k nd h
        exact hG k nd h (by simp)
  | cons t ts ih =>
      intro sc occ placed hsub hnd hC htag hoccL hoccP hplaced hG
      have hsub' : ∀ u ∈ ts, u ∈ tags0 := fun u hu => hsub u (List.mem_cons_of_mem t hu)
      rw [pass1]
      by_cases hex : (alookup t sc.nodes).isSome
      · rw [if_pos hex]
        cases hL : alookup t L with
        | some p =>
            have hmemp : p ∈ L.map Prod.snd := alookup_mem_values hL
            have h2 : (keys (aupdate t (set_pos p) sc.nodes)).Nodup := by
              rw [aupdate_keys]; exact hnd
            have h3 : ∀ k nd, alookup k (aupdate t (set_pos p) sc.nodes) = some nd →
                alookup k L = some nd.pos ∨ k ∈ ts ∨ alookup k L = none := by
              intro k nd h
              rw [alookup_aupdate] at h
              by_cases htk : t = k
              · rw [if_pos htk] at h
                cases h0 : alookup k sc.nodes with
                | none => rw [h0] at h; simp at h
                | some nd1 =>
                    rw [h0, Option.map_some'] at h
                    cases h
                    exact Or.inl (htk ▸ hL)
              · rw [if_neg htk] at h
                rcases hC k nd h with h1 | h1 | h1
                · exact Or.inl h1
                · rcases List.mem_cons.mp h1 with h1 | h1
                  · exact absurd h1.symm htk
                  · exact Or.inr (Or.inl h1)
                · exact Or.inr (Or.inr h1)
            have h4 : ∀ k nd, alookup k (aupdate t (set_pos p) sc.nodes) = some nd →
                k ∈ tags0 := by
              intro k nd h
              rw [alookup_aupdate] at h
              by_cases htk : t = k
              · rw [if_pos htk] at h
                cases h0 : alookup k sc.nodes with
                | none => rw [h0] at h; simp at h
                | some nd1 => exact htag k nd1 h0
              · rw [if_neg htk] at h
                exact htag k nd h
            have h5 : ∀ x ∈ insertPos p occ, x ∈ L.map Prod.snd := by
              intro x hx
              rcases mem_insertPos.mp hx with hx | hx
              · exact hoccL x hx
              · exact hx ▸ hmemp
            have h6 : (insertPos p occ).Pairwise no_overlap :=
              insertPos_pairwise hoccP (fun q hq hqp =>
                HLpw.forall no_overlap_symmetric (hoccL q hq) hmemp hqp)
            have h7 : ∀ u ∈ placed ++ [t], (alookup u L).isSome = true := by
              intro u hu
              rcases List.mem_append.mp hu with hu | hu
              · exact hplaced u hu
              · rw [List.mem_singleton] at hu
                rw [hu, hL]
                rfl
            have h8 : ∀ k nd, alookup k (aupdate t (set_pos p) sc.nodes) = some nd →
                k ∉ ts → alookup k L = none ∨ nd.pos ∈ insertPos p occ := by
              intro k nd h hk
              rw [alookup_aupdate] at h
              by_cases htk : t = k
              · rw [if_pos htk] at h
                cases h0 : alookup k sc.nodes with
                | none => rw [h0] at h; simp at h
                | some nd1 =>
                    rw [h0, Option.map_some'] at h
                    cases h
                    exact Or.inr (mem_insertPos.mpr (Or.inr rfl))
              · rw [if_neg htk] at h
                have hk2 : k ∉ t :: ts := by
                  intro hmem
                  rcases List.mem_cons.mp hmem with h1 | h1
                  · exact htk h1.symm
                  · exact hk h1
                rcases hG k nd h hk2 with h1 | h1
                · exact Or.inl h1
                · exact Or.inr (mem_insertPos.mpr (Or.inl h1))
            have := ih { sc with nodes := aupdate t (set_pos p) sc.nodes }
              (insertPos p occ) (placed ++ [t]) hsub' h2 h3 h4 h5 h6 h7 h8
            simpa using this
        | none =>
            have h3 : ∀ k nd, alookup k sc.nodes = some nd →
                alookup k L = some nd.pos ∨ k ∈ ts ∨ alookup k L = none := by
              intro k nd h
              rcases hC k nd h with h1 | h1 | h1
              · exact Or.inl h1
              · rcases List.mem_cons.mp h1 with h1 | h1
                · exact Or.inr (Or.inr (h1 ▸ hL))
                · exact Or.inr (Or.inl h1)
              · exact Or.inr (Or.inr h1)
            have h8 : ∀ k nd, alookup k sc.nodes = some nd → k ∉ ts →
                alookup k L = none ∨ nd.pos ∈ occ := by
              intro k nd h hk
              by_cases htk : k = t
              · exact Or.inl (htk ▸ hL)
              · exact hG k nd h (by
                  intro hmem
                  rcases List.mem_cons.mp hmem with h1 | h1
                  · exact htk h1
                  · exact hk h1)
            exact ih sc occ placed hsub' hnd h3 htag hoccL hoccP hplaced h8
      · rw [if_neg hex]
        have hnone : alookup t sc.nodes = none := by
          cases h0 : alookup t sc.nodes with
          | none => rfl
          | some v => rw [h0] at hex; simp at hex
        have htnm : t ∉ keys sc.nodes := alookup_none_not_mem_keys hnone
        have hndapp : (keys (sc.nodes ++ [(t, newTagNode sc.next_id)])).Nodup := by
          rw [keys_append_single]
          refine List.Nodup.append hnd (List.nodup_singleton t) ?_
          intro a ha hb
          rw [List.mem_singleton] at hb
          exact htnm (hb ▸ ha)
        cases hL : alookup t L with
        | some p =>
            have hmemp : p ∈ L.map Prod.snd := alookup_mem_values hL
            have h2 : (keys (aupdate t (set_pos p)
                (sc.nodes ++ [(t, newTagNode sc.next_id)]))).Nodup := by
              rw [aupdate_keys]; exact hndapp
            have h3 : ∀ k nd,
                alookup k (aupdate t (set_pos p) (sc.nodes ++ [(t, newTagNode sc.next_id)])) =
                  some nd →
                alookup k L = some nd.pos ∨ k ∈ ts ∨ alookup k L = none := by
              intro k nd h
              rw [alookup_aupdate] at h
              by_cases htk : t = k
              · rw [if_pos htk] at h
                have hself : alookup k (sc.nodes ++ [(t, newTagNode sc.next_id)]) =
                    some (newTagNode sc.next_id) := htk ▸ alookup_append_single_self hnone
                rw [hself, Option.map_some'] at h
                cases h
                exact Or.inl (htk ▸ hL)
              · rw [if_neg htk, alookup_append_single_ne htk] at h
                rcases hC k nd h with h1 | h1 | h1
                · exact Or.inl h1
                · rcases List.mem_cons.mp h1 with h1 | h1
                  · exact absurd h1.symm htk
                  · exact Or.inr (Or.inl h1)
                · exact Or.inr (Or.inr h1)
            have h4 : ∀ k nd,
                alookup k (aupdate t (set_pos p) (sc.nodes ++ [(t, newTagNode sc.next_id)])) =
                  some nd → k ∈ tags0 := by
              intro k nd h
              rw [alookup_aupdate] at h
              by_cases htk : t = k
              · exact htk ▸ hsub t (List.mem_cons_self t ts)
              · rw [if_neg htk, alookup_append_single_ne htk] at h
                exact htag k nd h
            have h5 : ∀ x ∈ insertPos p occ, x ∈ L.map Prod.snd := by
              intro x hx
              rcases mem_insertPos.mp hx with hx | hx
              · exact hoccL x hx
              · exact hx ▸ hmemp
            have h6 : (insertPos p occ).Pairwise no_overlap :=
              insertPos_pairwise hoccP (fun q hq hqp =>
                HLpw.forall no_overlap_symmetric (hoccL q hq) hmemp hqp)
            have h7 : ∀ u ∈ placed ++ [t], (alookup u L).isSome = true := by
              intro u hu
              rcases List.mem_append.mp hu with hu | hu
              · exact hplaced u hu
              · rw [List.mem_singleton] at hu
                rw [hu, hL]
                rfl
            have h8 : ∀ k nd,
                alookup k (aupdate t (set_pos p) (sc.nodes ++ [(t, newTagNode sc.next_id)])) =
                  some nd → k ∉ ts → alookup k L = none ∨ nd.pos ∈ insertPos p occ := by
              intro k nd h hk
              rw [alookup_aupdate] at h
              by_cases htk : t = k
              · rw [if_pos htk] at h
                have hself : alookup k (sc.nodes ++ [(t, newTagNode sc.next_id)]) =
                    some (newTagNode sc.next_id) := htk ▸ alookup_append_single_self hnone
                rw [hself, Option.map_some'] at h
                cases h
                exact Or.inr (mem_insertPos.mpr (Or.inr rfl))
              · rw [if_neg htk, alookup_append_single_ne htk] at h
                have hk2 : k ∉ t :: ts := by
                  intro hmem
                  rcases List.mem_cons.mp hmem with h1 | h1
                  · exact htk h1.symm
                  · exact hk h1
                rcases hG k nd h hk2 with h1 | h1
                · exact Or.inl h1
                · exact Or.inr (mem_insertPos.mpr (Or.inl h1))
            have := ih { sc with nodes := aupdate t (set_pos p) (sc.nodes ++ [(t, newTagNode sc.next_id)]), next_id := sc.next_id + 1 }
              (insertPos p occ) (placed ++ [t]) hsub' h2 h3 h4 h5 h6 h7 h8
            simpa using this
        | none =>
            have h3 : ∀ k nd, alookup k (sc.nodes ++ [(t, newTagNode sc.next_id)]) = some nd →
                alookup k L = some nd.pos ∨ k ∈ ts ∨ alookup k L = none := by
              intro k nd h
              by_cases htk : t = k
              · exact Or.inr (Or.inr (htk ▸ hL))
              · rw [alookup_append_single_ne htk] at h
                rcases hC k nd h with h1 | h1 | h1
                · exact Or.inl h1
                · rcases List.mem_cons.mp h1 with h1 | h1
                  · exact absurd h1.symm htk
                  · exact Or.inr (Or.inl h1)
                · exact Or.inr (Or.inr h1)
            have h4 : ∀ k nd, alookup k (sc.nodes ++ [(t, newTagNode sc.next_id)]) = some nd →
                k ∈ tags0 := by
              intro k nd h
              by_cases htk : t = k
              · exact htk ▸ hsub t (List.mem_cons_self t ts)
              · rw [alookup_append_single_ne htk] at h
                exact htag k nd h
            have h8 : ∀ k nd, alookup k (sc.nodes ++ [(t, newTagNode sc.next_id)]) = some nd →
                k ∉ ts → alookup k L = none ∨ nd.pos ∈ occ := by
              intro k nd h hk
              by_cases htk : t = k
              · exact Or.inl (htk ▸ hL)
              · rw [alookup_append_single_ne htk] at h
                exact hG k nd h (by
                  intro hmem
                  rcases List.mem_cons.mp hmem with h1 | h1
                  · exact htk h1.symm
                  · exact hk h1)
            have := ih { sc with nodes := sc.nodes ++ [(t, newTagNode sc.next_id)], next_id := sc.next_id + 1 }
              occ placed hsub' hndapp h3 h4 hoccL hoccP hplaced h8
            simpa using this

/-- The batch-placement invariant: starting from a pairwise
non-overlapping occupied set that contains the position of every node not
in the pending batch, placing the batch names one at a time (each placed
position joining the occupied set before the next placement) ends with
all node positions pairwise non-overlapping. -/
theorem place_batch_growth (fuel : ℕ) (cx cy : ℝ) :
    ∀ (names : List String) (sc : TagMapScene) (occ : List Pos)
      (out : TagMapScene × List Pos),
      place_batch fuel cx cy names sc occ = some out →
      (keys sc.nodes).Nodup →
      occ.Pairwise no_overlap →
      (∀ k nd, alookup k sc.nodes = some nd → k ∈ names ∨ nd.pos ∈ occ) →
      (∀ k1 k2 nd1 nd2, k1 ≠ k2 → alookup k1 sc.nodes = some nd1 →
        alookup k2 sc.nodes = some nd2 →
        no_overlap nd1.pos nd2.pos ∨ k1 ∈ names ∨ k2 ∈ names) →
      ((keys out.1.nodes).Nodup ∧
       (∀ k1 k2 nd1 nd2, k1 ≠ k2 → alookup k1 out.1.nodes = some nd1 →
         alookup k2 out.1.nodes = some nd2 → no_overlap nd1.pos nd2.pos)) := by
  intro names
  induction names with
  | nil =>
      intro sc occ out hout hnd hoccP h3 h4
      rw [place_batch] at hout
      cases hout
      refine ⟨hnd, fun k1 k2 nd1 nd2 hne h1 h2 => ?_⟩
      rcases h4 k1 k2 nd1 nd2 hne h1 h2 with h | h | h
      · exact h
      · simp at h
      · simp at h
  | cons t ts ih =>
      intro sc occ out hout hnd hoccP h3 h4
      rw [place_batch] at hout
      cases hp : find_next_available_pos fuel occ cx cy with
      | none => rw [hp] at hout; cases hout
      | some p =>
          rw [hp] at hout
          have hfresh : ∀ q ∈ occ, no_overlap q p :=
            find_next_available_pos_avoids fuel occ cx cy p hp
          have hndP : (keys (aupdate t (set_pos p) sc.nodes)).Nodup := by
            rw [aupdate_keys]; exact hnd
          have hoccP' : (insertPos p occ).Pairwise no_overlap :=
            insertPos_pairwise hoccP (fun q hq _ => hfresh q hq)
          have h3' : ∀ k nd, alookup k (aupdate t (set_pos p) sc.nodes) = some nd →
              k ∈ ts ∨ nd.pos ∈ insertPos p occ := by
            intro k nd h
            rw [alookup_aupdate] at h
            by_cases htk : t = k
            · rw [if_pos htk] at h
              cases h0 : alookup k sc.nodes with
              | none => rw [h0] at h; simp at h
              | some nd1 =>
                  rw [h0, Option.map_some'] at h
                  cases h
                  exact Or.inr (mem_insertPos.mpr (Or.inr rfl))
            · rw [if_neg htk] at h
              rcases h3 k nd h with h1 | h1
              · rcases List.mem_cons.mp h1 with h1 | h1
                · exact absurd h1.symm htk
                · exact Or.inl h1
              · exact Or.inr (mem_insertPos.mpr (Or.inl h1))
          have h4' : ∀ k1 k2 nd1 nd2, k1 ≠ k2 →
              alookup k1 (aupdate t (set_pos p) sc.nodes) = some nd1 →
              alookup k2 (aupdate t (set_pos p) sc.nodes) = some nd2 →
              no_overlap nd1.pos nd2.pos ∨ k1 ∈ ts ∨ k2 ∈ ts := by
            intro k1 k2 nd1 nd2 hne h1 h2
            rw [alookup_aupdate] at h1 h2
            by_cases htk1 : t = k1
            · rw [if_pos htk1] at h1
              have htk2 : ¬ t = k2 := fun he => hne (htk1 ▸ he ▸ rfl)
              rw [if_neg htk2] at h2
              cases h0 : alookup k1 sc.nodes with
              | none => rw [h0] at h1; simp at h1
              | some m1 =>
                  rw [h0, Option.map_some'] at h1
                  cases h1
                  rcases h3 k2 nd2 h2 with hmem | hocc2
                  · rcases List.mem_cons.mp hmem with hmem | hmem
                    · exact absurd hmem.symm htk2
                    · exact Or.inr (Or.inr hmem)
                  · exact Or.inl (no_overlap_symm (hfresh nd2.pos hocc2))
            · rw [if_neg htk1] at h1
              by_cases htk2 : t = k2
              · rw [if_pos htk2] at h2
                cases h0 : alookup k2 sc.nodes with
                | none => rw [h0] at h2; simp at h2
                | some m2 =>
                    rw [h0, Option.map_some'] at h2
                    cases h2
                    rcases h3 k1 nd1 h1 with hmem | hocc1
                    · rcases List.mem_cons.mp hmem with hmem | hmem
                      · exact absurd hmem.symm htk1
                      · exact Or.inr (Or.inl hmem)
                    · exact Or.inl (hfresh nd1.pos hocc1)
              · rw [if_neg htk2] at h2
                rcases h4 k1 k2 nd1 nd2 hne h1 h2 with h | h | h
                · exact Or.inl h
                · rcases List.mem_cons.mp h with h | h
                  · exact absurd h.symm htk1
                  · exact Or.inr (Or.inl h)
                · rcases List.mem_cons.mp h with h | h
                  · exact absurd h.symm htk2
                  · exact Or.inr (Or.inr h)
          have := ih { sc with nodes := aupdate t (set_pos p) sc.nodes }
            (insertPos p occ) out hout hndP hoccP' h3' h4'
          exact this

theorem aupdate_map_pair (a : String) (f : TagNode → TagNode)
    (hf : ∀ nd, (f nd).pos = nd.pos) (l : List (String × TagNode)) :
    (aupdate a f l).map (fun kv => (kv.1, kv.2.pos)) =
      l.map (fun kv => (kv.1, kv.2.pos)) := by
  induction l with
  | nil => simp [aupdate]
  | cons hd tl ih =>
      obtain ⟨k', v⟩ := hd
      by_cases h1 : k' = a <;> simp [aupdate, h1, hf, ih]

theorem add_connections_map_pair :
    ∀ (cds : List ConnData) (sc : TagMapScene),
      (add_connections cds sc).nodes.map (fun kv => (kv.1, kv.2.pos)) =
        sc.nodes.map (fun kv => (kv.1, kv.2.pos)) := by
  intro cds
  induction cds with
  | nil => intro sc; rfl
  | cons cd rest ih =>
      intro sc
      cases h1 : alookup cd.start sc.nodes with
      | none =>
          have hred : add_connections (cd :: rest) sc = add_connections rest sc := by
            simp [add_connections, h1]
          rw [hred]
          exact ih sc
      | some sn =>
          cases h2 : alookup cd.end_ sc.nodes with
          | none =>
              have hred : add_connections (cd :: rest) sc = add_connections rest sc := by
                simp [add_connections, h1, h2]
              rw [hred]
              exact ih sc
          | some en =>
              by_cases hany : (sn.edges.any fun e => e.end_node_id == en.id) = true
              · have hred : add_connections (cd :: rest) sc = add_connections rest sc := by
                  simp [add_connections, h1, h2, hany]
                rw [hred]
                exact ih sc
              · have hred : add_connections (cd :: rest) sc =
                    add_connections rest (createConnection sc cd.start sn.id cd.end_
                      en.id (cd.label.getD "")) := by
                  simp [add_connections, h1, h2, hany]
                rw [hred, ih]
                simp only [createConnection]
                rw [aupdate_map_pair _ (add_edge _) (fun nd => rfl),
                  aupdate_map_pair _ (add_edge _) (fun nd => rfl)]

/-- `populate_scene` in the growth setting: if the saved positions are
pairwise non-overlapping and reproduce the current position of every
present node, the repopulated scene has pairwise non-overlapping node
positions. -/
theorem populate_scene_growth (fuel : ℕ) (sc s' : TagMapScene)
    (h : populate_scene fuel sc = some s')
    (hnd : (keys sc.nodes).Nodup)
    (HLpw : ((sc.layout_data.nodes).map Prod.snd).Pairwise no_overlap)
    (hC : ∀ k nd, alookup k sc.nodes = some nd →
      alookup k sc.layout_data.nodes = some nd.pos)
    (htag : ∀ k nd, alookup k sc.nodes = some nd → k ∈ sc.tags) :
    (keys s'.nodes).Nodup ∧
      (s'.nodes.map (fun kv => kv.2.pos)).Pairwise no_overlap := by
  rw [populate_scene] at h
  have hp1 := pass1_growth sc.layout_data.nodes sc.tags HLpw sc.tags sc [] []
    (fun u hu => hu) hnd (fun k nd h' => Or.inl (hC k nd h')) htag
    (by simp) (by simp) (by simp)
    (fun k nd h' hk => absurd (htag k nd h') hk)
  set r := pass1 sc.layout_data.nodes sc.tags sc [] [] with hr
  obtain ⟨ha, hb, hc, _, he, hf, hg⟩ := hp1
  cases hpb : place_batch fuel (batch_center r.2.1).1 (batch_center r.2.1).2
      (sorted_new_tags sc.tags r.2.2) r.1 r.2.1 with
  | none => rw [hpb] at h; cases h
  | some out =>
      rw [hpb] at h
      have hplmem : ∀ k nd, alookup k r.1.nodes = some nd →
          k ∉ sorted_new_tags sc.tags r.2.2 → nd.pos ∈ r.2.1 ∧
            alookup k sc.layout_data.nodes = some nd.pos := by
        intro k nd h' hn
        have hkt : k ∈ sc.tags := hc k nd h'
        have hpl : k ∈ r.2.2 := by
          by_contra hnp
          exact hn (mem_sorted_new_tags.mpr ⟨hkt, hnp⟩)
        have hsome := hf k hpl
        constructor
        · rcases hg k nd h' with h0 | h0
          · rw [h0] at hsome; simp at hsome
          · exact h0
        · rcases hb k nd h' with h0 | h0
          · exact h0
          · rw [h0] at hsome; simp at hsome
      have b3 : ∀ k nd, alookup k r.1.nodes = some nd →
          k ∈ sorted_new_tags sc.tags r.2.2 ∨ nd.pos ∈ r.2.1 := by
        intro k nd h'
        by_cases hn : k ∈ sorted_new_tags sc.tags r.2.2
        · exact Or.inl hn
        · exact Or.inr (hplmem k nd h' hn).1
      have b4 : ∀ k1 k2 nd1 nd2, k1 ≠ k2 → alookup k1 r.1.nodes = some nd1 →
          alookup k2 r.1.nodes = some nd2 →
          no_overlap nd1.pos nd2.pos ∨ k1 ∈ sorted_new_tags sc.tags r.2.2 ∨
            k2 ∈ sorted_new_tags sc.tags r.2.2 := by
        intro k1 k2 nd1 nd2 hne h1' h2'
        by_cases hn1 : k1 ∈ sorted_new_tags sc.tags r.2.2
        · exact Or.inr (Or.inl hn1)
        · by_cases hn2 : k2 ∈ sorted_new_tags sc.tags r.2.2
          · exact Or.inr (Or.inr hn2)
          · exact Or.inl (values_pairwise_alookup HLpw hne
              (hplmem k1 nd1 h1' hn1).2 (hplmem k2 nd2 h2' hn2).2)
      have hbatch := place_batch_growth fuel (batch_center r.2.1).1
        (batch_center r.2.1).2 (sorted_new_tags sc.tags r.2.2) r.1 r.2.1 out
        hpb ha he b3 b4
      cases h
      have hmp := add_connections_map_pair sc.layout_data.connections out.1
      have hkeys : keys (add_connections sc.layout_data.connections out.1).nodes =
          keys out.1.nodes := by
        have h1 := congrArg keys hmp
        rwa [keys_map_pos, keys_map_pos] at h1
      have hpos : (add_connections sc.layout_data.connections out.1).nodes.map
            (fun kv => kv.2.pos) = out.1.nodes.map (fun kv => kv.2.pos) := by
        have h1 := congrArg (List.map Prod.snd) hmp
        rwa [values_map_pos, values_map_pos] at h1
      constructor
      · rw [hkeys]; exact hbatch.1
      · rw [hpos]
        exact pairwise_pos_of_alookup out.1.nodes hbatch.1 hbatch.2

/-- One growth step (`update_tags` with the scene's own export) preserves
distinct node keys and pairwise non-overlapping positions. -/
theorem update_scene_export_growth (fuel : ℕ) (s : TagMapScene) (tags : List String)
    (s' : TagMapScene)
    (h : update_scene fuel s tags (some (get_layout_data s)) = some s')
    (hnd : (keys s.nodes).Nodup)
    (hpw : (s.nodes.map (fun kv => kv.2.pos)).Pairwise no_overlap) :
    (keys s'.nodes).Nodup ∧
      (s'.nodes.map (fun kv => kv.2.pos)).Pairwise no_overlap := by
  rw [update_scene] at h
  have f1 : ((s.nodes.filter (fun kv => kv.1 ∈ tags)).map Prod.fst).Nodup := by
    have hsub : List.Sublist ((s.nodes.filter (fun kv => kv.1 ∈ tags)).map Prod.fst)
        (s.nodes.map Prod.fst) := List.Sublist.map _ (List.filter_sublist _)
    exact List.Nodup.sublist hsub hnd
  have f2 : ((s.nodes.map (fun kv => (kv.1, kv.2.pos))).map Prod.snd).Pairwise
      no_overlap := by
    rw [values_map_pos]; exact hpw
  have f3 : ∀ k nd, alookup k (s.nodes.filter (fun kv => kv.1 ∈ tags)) = some nd →
      alookup k (s.nodes.map (fun kv => (kv.1, kv.2.pos))) = some nd.pos := by
    intro k nd h'
    rw [alookup_filter] at h'
    by_cases hk : k ∈ tags
    · rw [if_pos hk] at h'
      rw [alookup_map_pos, h', Option.map_some']
    · rw [if_neg hk] at h'; cases h'
  have f4 : ∀ k nd, alookup k (s.nodes.filter (fun kv => kv.1 ∈ tags)) = some nd →
      k ∈ tags := by
    intro k nd h'
    rw [alookup_filter] at h'
    by_cases hk : k ∈ tags
    · exact hk
    · rw [if_neg hk] at h'; cases h'
  exact populate_scene_growth fuel _ s' h f1 f2 f3 f4

theorem growth_steps_invariant (fuel : ℕ) :
    ∀ (steps : List (List String)) (s0 s : TagMapScene),
      (keys s0.nodes).Nodup →
      (s0.nodes.map (fun kv => kv.2.pos)).Pairwise no_overlap →
      growth_steps fuel s0 steps = some s →
      (keys s.nodes).Nodup ∧
        (s.nodes.map (fun kv => kv.2.pos)).Pairwise no_overlap := by
  intro steps
  induction steps with
  | nil =>
      intro s0 s h1 h2 h
      rw [growth_steps] at h
      cases h
      exact ⟨h1, h2⟩
  | cons tags rest ih =>
      intro s0 s h1 h2 h
      rw [growth_steps] at h
      cases hu : update_scene fuel s0 tags (some (get_layout_data s0)) with
      | none => rw [hu] at h; cases h
      | some s1 =>
          rw [hu] at h
          have hstep := update_scene_export_growth fuel s0 tags s1 hu h1 h2
          exact ih s1 s hstep.1 hstep.2 h

/-- C3: starting from an empty scene, after any sequence of tag-set
growth operations (each reconciling against the scene's own exported
layout, so that every node position was assigned by the spiral search;
each batch is placed in sorted name order with every placed position
joining the collision set before the next placement), every pair of node
positions `p, q` satisfies `120 <= |p.x - q.x|` or `50 <= |p.y - q.y|`. -/
theorem spiral_growth_no_overlap (fuel : ℕ) (steps : List (List String))
    (s : TagMapScene) (h : growth_steps fuel empty_scene steps = some s) :
    (s.nodes.map (fun kv => kv.2.pos)).Pairwise no_overlap :=
  (growth_steps_invariant fuel steps empty_scene s
    (by simp [empty_scene, keys]) (by simp [empty_scene]) h).2

/-- Witness for C3: one growth step from the empty scene places the tag
`a` at the first spiral candidate `(150, 0)`. -/
theorem spiral_growth_no_overlap_witness :
    growth_steps 1 empty_scene [["a"]] =
      some ⟨[("a", ⟨0, (150, 0), [], false⟩)], [], none, ["a"], ⟨[], []⟩, 1⟩ ∧
    ((⟨[("a", ⟨0, (150, 0), [], false⟩)], [], none, ["a"], ⟨[], []⟩, 1⟩ :
        TagMapScene).nodes.map (fun kv => kv.2.pos)).Pairwise no_overlap := by
  have h : growth_steps 1 empty_scene [["a"]] =
      some ⟨[("a", ⟨0, (150, 0), [], false⟩)], [], none, ["a"], ⟨[], []⟩, 1⟩ := by
    norm_num +decide [growth_steps, update_scene, populate_scene, pass1, alookup,
      aupdate, insertPos, batch_center, sorted_new_tags, place_batch,
      add_connections, createConnection, add_edge, set_pos, newTagNode,
      empty_scene, get_layout_data, find_next_available_pos, find_pos_loop,
      collides, Prod.ext_iff, Real.cos_zero, Real.sin_zero,
      List.dedup_nil, List.dedup_cons_of_not_mem]
  exact ⟨h, spiral_growth_no_overlap 1 [["a"]] _ h⟩

/-! ### Highlight invariant (C10) -/

theorem unhighlighted_aupdate (t : String) (f : TagNode → TagNode)
    (l : List (String × TagNode))
    (hf : ∀ nd, (f nd).highlighted = nd.highlighted)
    (h : unhighlighted l) : unhighlighted (aupdate t f l) := by
  intro k nd hnd
  rw [alookup_aupdate] at hnd
  by_cases htk : t = k
  · rw [if_pos htk] at hnd
    cases h0 : alookup k l with
    | none => rw [h0] at hnd; simp at hnd
    | some nd0 =>
        rw [h0, Option.map_some'] at hnd
        cases hnd
        rw [hf]
        exact h _ _ h0
  · rw [if_neg htk] at hnd
    exact h _ _ hnd

theorem unhighlighted_append_new (t : String) (i : ℕ) (l : List (String × TagNode))
    (h : unhighlighted l) : unhighlighted (l ++ [(t, newTagNode i)]) := by
  intro k nd hnd
  cases h0 : alookup k l with
  | some v =>
      rw [alookup_append_some _ _ _ _ h0] at hnd
      cases hnd
      exact h _ _ h0
  | none =>
      rw [alookup_append_none _ _ _ h0] at hnd
      by_cases htk : t = k
      · simp only [alookup, if_pos htk] at hnd
        cases hnd
        rfl
      · simp [alookup, htk] at hnd

theorem pass1_unhighlighted (L : List (String × Pos)) :
    ∀ (ts : List String) (sc : TagMapScene) (occ : List Pos) (placed : List String),
      unhighlighted sc.nodes →
      unhighlighted (pass1 L ts sc occ placed).1.nodes ∧
        (pass1 L ts sc occ placed).1.start_node = sc.start_node ∧
        (pass1 L ts sc occ placed).1.conns = sc.conns := by
  intro ts
  induction ts with
  | nil => intro sc occ placed h; exact ⟨h, rfl, rfl⟩
  | cons t ts ih =>
      intro sc occ placed h
      rw [pass1]
      by_cases hex : (alookup t sc.nodes).isSome
      · rw [if_pos hex]
        cases hL : alookup t L with
        | some p =>
            have := ih { sc with nodes := aupdate t (set_pos p) sc.nodes }
              (insertPos p occ) (placed ++ [t])
              (unhighlighted_aupdate t _ _ (fun nd => rfl) h)
            simpa using this
        | none => exact ih sc occ placed h
      · rw [if_neg hex]
        cases hL : alookup t L with
        | some p =>
            have := ih { sc with nodes := aupdate t (set_pos p) (sc.nodes ++ [(t, newTagNode sc.next_id)]), next_id := sc.next_id + 1 }
              (insertPos p occ) (placed ++ [t])
              (unhighlighted_aupdate t _ _ (fun nd => rfl)
                (unhighlighted_append_new t _ _ h))
            simpa using this
        | none =>
            have := ih { sc with nodes := sc.nodes ++ [(t, newTagNode sc.next_id)], next_id := sc.next_id + 1 }
              occ placed (unhighlighted_append_new t _ _ h)
            simpa using this

theorem place_batch_unhighlighted (fuel : ℕ) (cx cy : ℝ) :
    ∀ (names : List String) (sc : TagMapScene) (occ : List Pos) out,
      place_batch fuel cx cy names sc occ = some out →
      unhighlighted sc.nodes →
      unhighlighted out.1.nodes ∧ out.1.start_node = sc.start_node ∧
        out.1.conns = sc.conns := by
  intro names
  induction names with
  | nil =>
      intro sc occ out hout h
      rw [place_batch] at hout
      cases hout
      exact ⟨h, rfl, rfl⟩
  | cons t ts ih =>
      intro sc occ out hout h
      rw [place_batch] at hout
      cases hp : find_next_available_pos fuel occ cx cy with
      | none => rw [hp] at hout; cases hout
      | some p =>
          rw [hp] at hout
          have := ih { sc with nodes := aupdate t (set_pos p) sc.nodes }
            (insertPos p occ) out hout
            (unhighlighted_aupdate t _ _ (fun nd => rfl) h)
          simpa using this

theorem add_connections_unhighlighted :
    ∀ (cds : List ConnData) (sc : TagMapScene),
      unhighlighted sc.nodes →
      unhighlighted (add_connections cds sc).nodes ∧
        (add_connections cds sc).start_node = sc.start_node := by
  intro cds
  induction cds with
  | nil => intro sc h; exact ⟨h, rfl⟩
  | cons cd rest ih =>
      intro sc h
      cases h1 : alookup cd.start sc.nodes with
      | none =>
          have hred : add_connections (cd :: rest) sc = add_connections rest sc := by
            simp [add_connections, h1]
          rw [hred]
          exact ih sc h
      | some sn =>
          cases h2 : alookup cd.end_ sc.nodes with
          | none =>
              have hred : add_connections (cd :: rest) sc = add_connections rest sc := by
                simp [add_connections, h1, h2]
              rw [hred]
              exact ih sc h
          | some en =>
              by_cases hany : (sn.edges.any fun e => e.end_node_id == en.id) = true
              · have hred : add_connections (cd :: rest) sc = add_connections rest sc := by
                  simp [add_connections, h1, h2, hany]
                rw [hred]
                exact ih sc h
              · have hred : add_connections (cd :: rest) sc =
                    add_connections rest (createConnection sc cd.start sn.id cd.end_
                      en.id (cd.label.getD "")) := by
                  simp [add_connections, h1, h2, hany]
                rw [hred]
                have hcc : unhighlighted (createConnection sc cd.start sn.id cd.end_
                    en.id (cd.label.getD "")).nodes := by
                  simp only [createConnection]
                  exact unhighlighted_aupdate _ _ _ (fun nd => rfl)
                    (unhighlighted_aupdate _ _ _ (fun nd => rfl) h)
                have := ih (createConnection sc cd.start sn.id cd.end_ en.id
                  (cd.label.getD "")) hcc
                simpa [createConnection] using this

theorem update_scene_unhighlighted (fuel : ℕ) (s : TagMapScene) (tags : List String)
    (layout : Option LayoutData) (s' : TagMapScene)
    (h : update_scene fuel s tags layout = some s')
    (hu : unhighlighted s.nodes) (hs : s.start_node = none) :
    unhighlighted s'.nodes ∧ s'.start_node = none := by
  rw [update_scene, populate_scene] at h
  set s3 : TagMapScene :=
    { s with tags := tags, layout_data := layout.getD ⟨[], []⟩,
             nodes := s.nodes.filter (fun kv => kv.1 ∈ tags), conns := [] } with hs3
  have hu3 : unhighlighted s3.nodes := by
    intro k nd hnd
    rw [hs3] at hnd
    simp only [alookup_filter] at hnd
    by_cases hk : k ∈ tags
    · rw [if_pos hk] at hnd; exact hu _ _ hnd
    · rw [if_neg hk] at hnd; cases hnd
  have hp1 := pass1_unhighlighted s3.layout_data.nodes s3.tags s3 [] [] hu3
  cases hpb : place_batch fuel
      (batch_center (pass1 s3.layout_data.nodes s3.tags s3 [] []).2.1).1
      (batch_center (pass1 s3.layout_data.nodes s3.tags s3 [] []).2.1).2
      (sorted_new_tags s3.tags (pass1 s3.layout_data.nodes s3.tags s3 [] []).2.2)
      (pass1 s3.layout_data.nodes s3.tags s3 [] []).1
      (pass1 s3.layout_data.nodes s3.tags s3 [] []).2.1 with
  | none => rw [hpb] at h; cases h
  | some out =>
      rw [hpb] at h
      have hb := place_batch_unhighlighted fuel _ _ _ _ _ out hpb hp1.1
      have hac := add_connections_unhighlighted s3.layout_data.connections out.1 hb.1
      cases h
      refine ⟨hac.1, ?_⟩
      rw [hac.2, hb.2.1, hp1.2.1, hs3]
      exact hs

theorem mousePressEvent_createConnection_flag (s : TagMapScene)
    (a : String) (aid : ℕ) (b : String) (bid : ℕ) (label : String) (k : String) :
    (alookup k (createConnection s a aid b bid label).nodes).map TagNode.highlighted =
      (alookup k s.nodes).map TagNode.highlighted := by
  simp only [createConnection]
  rw [alookup_aupdate, alookup_aupdate]
  cases h0 : alookup k s.nodes with
  | none => by_cases hb : b = k <;> by_cases ha : a = k <;> simp [hb, ha, h0, add_edge]
  | some nd => by_cases hb : b = k <;> by_cases ha : a = k <;> simp [hb, ha, h0, add_edge]

theorem highlight_inv_unhighlight (s1 : TagMapScene) (a : String)
    (hall : ∀ k nd, alookup k s1.nodes = some nd → nd.highlighted = true → k = a) :
    ∀ k nd, alookup k (aupdate a (set_highlighted false) s1.nodes) = some nd →
      nd.highlighted = false := by
  intro k nd hnd
  rw [alookup_aupdate] at hnd
  by_cases hak : a = k
  · rw [if_pos hak] at hnd
    cases h0 : alookup k s1.nodes with
    | none => rw [h0] at hnd; simp at hnd
    | some nd0 => rw [h0, Option.map_some'] at hnd; cases hnd; rfl
  · rw [if_neg hak] at hnd
    by_contra hcon
    have : nd.highlighted = true := by
      cases hn : nd.highlighted
      · exact absurd hn hcon
      · rfl
    exact hak ((hall k nd hnd this).symm)

theorem mousePressEvent_highlight_inv (s : TagMapScene)
    (click prompt : Option String) (h : highlight_inv s) :
    highlight_inv (mousePressEvent s click prompt) := by
  have hstart_of_hl : ∀ k nd, alookup k s.nodes = some nd → nd.highlighted = true →
      s.start_node = some k := fun k nd hnd hl => (h k nd hnd).mp hl
  cases click with
  | none =>
      cases hsn : s.start_node with
      | none => simpa [mousePressEvent, hsn] using h
      | some a =>
          intro k nd hnd
          simp only [mousePressEvent, hsn] at hnd ⊢
          have hflags := highlight_inv_unhighlight s a
            (fun k' nd' hnd' hl' => by
              have := hstart_of_hl k' nd' hnd' hl'
              rw [hsn] at this
              exact (Option.some.inj this).symm) k nd hnd
          simp [hflags]
  | some n =>
      cases hsn : s.start_node with
      | none =>
          intro k nd hnd
          simp only [mousePressEvent, hsn] at hnd ⊢
          rw [alookup_aupdate] at hnd
          by_cases hnk : n = k
          · rw [if_pos hnk] at hnd
            cases h0 : alookup k s.nodes with
            | none => rw [h0] at hnd; simp at hnd
            | some nd0 =>
                rw [h0, Option.map_some'] at hnd
                cases hnd
                simp [set_highlighted, hnk]
          · rw [if_neg hnk] at hnd
            have hf : nd.highlighted = false := by
              by_contra hcon
              have hl : nd.highlighted = true := by
                cases hx : nd.highlighted
                · exact absurd hx hcon
                · rfl
              have := hstart_of_hl k nd hnd hl
              rw [hsn] at this
              cases this
            rw [hf]
            simp only [Bool.false_eq_true, false_iff]
            intro hx
            exact hnk (Option.some.inj hx)
      | some a =>
          by_cases han : a = n
          · subst han
            intro k nd hnd
            simp only [mousePressEvent, hsn, ne_eq, not_true_eq_false,
              if_neg (by simp : ¬ (a ≠ a))] at hnd ⊢
            have hflags := highlight_inv_unhighlight s a
              (fun k' nd' hnd' hl' => by
                have := hstart_of_hl k' nd' hnd' hl'
                rw [hsn] at this
                exact (Option.some.inj this).symm) k nd hnd
            simp [hflags]
          · intro k nd hnd
            simp only [mousePressEvent, hsn, if_pos (by exact han : a ≠ n)] at hnd ⊢
            set s1 := (match prompt with
              | some label => createConnection s a (node_id_of s a) n (node_id_of s n) label
              | none => s) with hs1
            have hs1flag : ∀ k', (alookup k' s1.nodes).map TagNode.highlighted =
                (alookup k' s.nodes).map TagNode.highlighted := by
              intro k'
              rw [hs1]
              cases prompt with
              | none => rfl
              | some label =>
                  exact mousePressEvent_createConnection_flag s a (node_id_of s a) n
                    (node_id_of s n) label k'
            have hall1 : ∀ k' nd', alookup k' s1.nodes = some nd' →
                nd'.highlighted = true → k' = a := by
              intro k' nd' hnd' hl'
              have hmap := hs1flag k'
              rw [hnd', Option.map_some'] at hmap
              cases h0 : alookup k' s.nodes with
              | none => rw [h0] at hmap; simp at hmap
              | some nd0 =>
                  rw [h0, Option.map_some'] at hmap
                  have : nd0.highlighted = true := by
                    rw [← Option.some.inj hmap, hl']
                  have := hstart_of_hl k' nd0 h0 this
                  rw [hsn] at this
                  exact (Option.some.inj this).symm
            have hflags := highlight_inv_unhighlight s1 a hall1 k nd hnd
            simp [hflags]

theorem run_events_highlight_inv (events : List (Option String × Option String)) :
    ∀ s : TagMapScene, highlight_inv s → highlight_inv (run_events s events) := by
  induction events with
  | nil => intro s h; exact h
  | cons e es ih =>
      intro s h
      rw [run_events]
      exact ih _ (mousePressEvent_highlight_inv s e.1 e.2 h)

theorem init_scene_highlight_inv (fuel : ℕ) (tags : List String)
    (layout : Option LayoutData) (s0 : TagMapScene)
    (h : init_scene fuel tags layout = some s0) : highlight_inv s0 := by
  have h0 := update_scene_unhighlighted fuel empty_scene tags layout s0 h
    (fun k nd hnd => by simp [empty_scene, alookup] at hnd) rfl
  intro k nd hnd
  rw [h0.2, h0.1 k nd hnd]
  simp

/-- C10: after any sequence of scene mouse-press events starting from a
freshly initialized scene, a node is highlighted exactly when it is the
scene's current pending-connection start node, and hence at most one node
is highlighted at any time. -/
theorem highlight_iff_pending_start (fuel : ℕ) (tags : List String)
    (layout : Option LayoutData) (events : List (Option String × Option String))
    (s0 : TagMapScene) (hinit : init_scene fuel tags layout = some s0) :
    (∀ k nd, alookup k (run_events s0 events).nodes = some nd →
       (nd.highlighted = true ↔ (run_events s0 events).start_node = some k)) ∧
    (∀ k1 k2 nd1 nd2, alookup k1 (run_events s0 events).nodes = some nd1 →
       alookup k2 (run_events s0 events).nodes = some nd2 →
       nd1.highlighted = true → nd2.highlighted = true → k1 = k2) := by
  have hinv := run_events_highlight_inv events s0
    (init_scene_highlight_inv fuel tags layout s0 hinit)
  refine ⟨hinv, fun k1 k2 nd1 nd2 h1 h2 hl1 hl2 => ?_⟩
  have e1 := (hinv k1 nd1 h1).mp hl1
  have e2 := (hinv k2 nd2 h2).mp hl2
  rw [e1] at e2
  exact Option.some.inj e2

/-- Witness for C10: one tag with a saved position, one click on it. -/
theorem highlight_iff_pending_start_witness :
    init_scene 0 ["a"] (some ⟨[("a", (0, 0))], []⟩) =
      some ⟨[("a", ⟨0, (0, 0), [], false⟩)], [], none, ["a"], ⟨[("a", (0, 0))], []⟩, 1⟩ ∧
    ((∀ k nd, alookup k (run_events
        ⟨[("a", ⟨0, (0, 0), [], false⟩)], [], none, ["a"], ⟨[("a", (0, 0))], []⟩, 1⟩
        [(some "a", none)]).nodes = some nd →
       (nd.highlighted = true ↔ (run_events
        ⟨[("a", ⟨0, (0, 0), [], false⟩)], [], none, ["a"], ⟨[("a", (0, 0))], []⟩, 1⟩
        [(some "a", none)]).start_node = some k)) ∧
     (∀ k1 k2 nd1 nd2, alookup k1 (run_events
        ⟨[("a", ⟨0, (0, 0), [], false⟩)], [], none, ["a"], ⟨[("a", (0, 0))], []⟩, 1⟩
        [(some "a", none)]).nodes = some nd1 →
       alookup k2 (run_events
        ⟨[("a", ⟨0, (0, 0), [], false⟩)], [], none, ["a"], ⟨[("a", (0, 0))], []⟩, 1⟩
        [(some "a", none)]).nodes = some nd2 →
       nd1.highlighted = true → nd2.highlighted = true → k1 = k2)) := by
  have h : init_scene 0 ["a"] (some ⟨[("a", (0, 0))], []⟩) =
      some ⟨[("a", ⟨0, (0, 0), [], false⟩)], [], none, ["a"], ⟨[("a", (0, 0))], []⟩, 1⟩ := by
    norm_num +decide [init_scene, update_scene, populate_scene, pass1, alookup, aupdate,
      insertPos, batch_center, sorted_new_tags, place_batch, add_connections,
      createConnection, add_edge, set_pos, newTagNode, empty_scene, Prod.ext_iff]
  exact ⟨h, highlight_iff_pending_start 0 ["a"] (some ⟨[("a", (0, 0))], []⟩)
    [(some "a", none)] _ h⟩

/-- C4: for every ray `(dx, dy)` in a node's local frame with half-axes
`rx, ry`, `get_intersection_point` returns `(0, ry)` if `dy > 0` and
`(0, -ry)` otherwise when `|dx| < 1e-6` (vertical ray, excluding the
coincident case tested first); returns `(0, 0)` when both components are
zero (coincident nodes); and otherwise returns `(x, m*x)` with
`m = dy/dx` and `x = sqrt (1 / (1/rx^2 + m^2/ry^2))` negated when
`dx < 0`, a point lying on the ellipse `(x/rx)^2 + (y/ry)^2 = 1` on the
side of the ray direction. -/
theorem get_intersection_point_contract (rx ry dx dy : ℝ)
    (hrx : 0 < rx) (hry : 0 < ry) :
    (dx = 0 ∧ dy = 0 → get_intersection_point rx ry dx dy = some (0, 0)) ∧
    (¬(dx = 0 ∧ dy = 0) → |dx| < 1e-6 →
      get_intersection_point rx ry dx dy = some (0, if 0 < dy then ry else -ry)) ∧
    (¬(dx = 0 ∧ dy = 0) → ¬ |dx| < 1e-6 →
      ∃ x, get_intersection_point rx ry dx dy = some (x, dy / dx * x) ∧
        (x / rx) ^ 2 + (dy / dx * x / ry) ^ 2 = 1 ∧ 0 < x * dx) := by
  refine ⟨fun h => by simp [get_intersection_point, h.1, h.2], fun h hv => ?_, fun h hv => ?_⟩
  · rw [get_intersection_point, if_neg h, if_pos hv]
  · have hrx2 : rx * rx ≠ 0 := by positivity
    have hry2 : ry * ry ≠ 0 := by positivity
    set m := dy / dx with hm
    have hd : 0 < 1 / (rx * rx) + m * m / (ry * ry) := by
      have h1 : 0 < 1 / (rx * rx) := by positivity
      have h2 : 0 ≤ m * m / (ry * ry) := div_nonneg (mul_self_nonneg m) (by positivity)
      linarith
    have hdne : 1 / (rx * rx) + m * m / (ry * ry) ≠ 0 := ne_of_gt hd
    have hx2 : 0 < 1 / (1 / (rx * rx) + m * m / (ry * ry)) := by positivity
    have hx0 : 0 < Real.sqrt (1 / (1 / (rx * rx) + m * m / (ry * ry))) :=
      Real.sqrt_pos.mpr hx2
    set x0 := Real.sqrt (1 / (1 / (rx * rx) + m * m / (ry * ry))) with hx0def
    have hdx : dx ≠ 0 := by
      intro h0
      exact hv (by simp [h0, abs_zero]; norm_num)
    have hsq : x0 ^ 2 = 1 / (1 / (rx * rx) + m * m / (ry * ry)) := by
      rw [hx0def, Real.sq_sqrt (le_of_lt hx2)]
    have hell : ∀ x : ℝ, x ^ 2 = x0 ^ 2 →
        (x / rx) ^ 2 + (m * x / ry) ^ 2 = 1 := by
      intro x hx
      have : (x / rx) ^ 2 + (m * x / ry) ^ 2
          = x ^ 2 * (1 / (rx * rx) + m * m / (ry * ry)) := by
        field_simp
        ring
      rw [this, hx, hsq, one_div,
        inv_mul_cancel₀ hdne]
    refine ⟨if dx < 0 then -x0 else x0, ?_, ?_, ?_⟩
    · rw [get_intersection_point, if_neg h, if_neg hv, if_neg hrx2, if_neg hry2]
      simp only [← hm, ← hx0def, if_neg hdne, if_neg (not_lt.mpr (le_of_lt hx2))]
    · by_cases hneg : dx < 0
      · rw [if_pos hneg]; exact hell _ (by ring)
      · rw [if_neg hneg]; exact hell _ rfl
    · by_cases hneg : dx < 0
      · rw [if_pos hneg]
        have : 0 < (-x0) * dx := by
          have := mul_pos hx0 (neg_pos.mpr hneg)
          nlinarith
        exact this
      · rw [if_neg hneg]
        exact mul_pos hx0 (lt_of_le_of_ne (not_lt.mp hneg) (Ne.symm hdx))

/-- Witness for C4 at the node's real half-axes `rx = 45`, `ry = 15` and
the horizontal ray `(30, 0)`. -/
theorem get_intersection_point_contract_witness :
    (0:ℝ) < 45 ∧ (0:ℝ) < 15 ∧
    ((30:ℝ) = 0 ∧ (0:ℝ) = 0 → get_intersection_point 45 15 30 0 = some (0, 0)) ∧
    (¬((30:ℝ) = 0 ∧ (0:ℝ) = 0) → |(30:ℝ)| < 1e-6 →
      get_intersection_point 45 15 30 0 = some (0, if (0:ℝ) < 0 then 15 else -15)) ∧
    (¬((30:ℝ) = 0 ∧ (0:ℝ) = 0) → ¬ |(30:ℝ)| < 1e-6 →
      ∃ x, get_intersection_point 45 15 30 0 = some (x, (0:ℝ) / 30 * x) ∧
        (x / 45) ^ 2 + ((0:ℝ) / 30 * x / 15) ^ 2 = 1 ∧ 0 < x * 30) :=
  ⟨by norm_num, by norm_num,
    get_intersection_point_contract 45 15 30 0 (by norm_num) (by norm_num)⟩

/-- C9: every position the spiral search returns lies exactly on a circle
of radius `150 + 10 * k` around the supplied center, so its Euclidean
distance from the center is at least 150: a newly placed node is never
put at or near the centroid itself. -/
theorem find_next_available_pos_on_circle (fuel : ℕ) (occ : List Pos)
    (cx cy : ℝ) (p : Pos) (h : find_next_available_pos fuel occ cx cy = some p) :
    (∃ k : ℕ, Real.sqrt ((p.1 - cx) ^ 2 + (p.2 - cy) ^ 2) = 150 + 10 * (k : ℝ)) ∧
    150 ≤ Real.sqrt ((p.1 - cx) ^ 2 + (p.2 - cy) ^ 2) := by
  obtain ⟨k, hk⟩ := find_pos_loop_radius occ cx cy fuel 150 0 p ⟨0, by norm_num⟩ h
  have hpos : (0:ℝ) ≤ 150 + 10 * (k : ℝ) := by positivity
  have hs : Real.sqrt ((p.1 - cx) ^ 2 + (p.2 - cy) ^ 2) = 150 + 10 * (k : ℝ) := by
    rw [hk, Real.sqrt_sq hpos]
  constructor
  · exact ⟨k, hs⟩
  · rw [hs]
    have : (0:ℝ) ≤ (k : ℝ) := Nat.cast_nonneg k
    linarith

/-- Witness for C9: an empty occupied set, center `(0, 0)`; the first
candidate `(150 * cos 0, 150 * sin 0) = (150, 0)` is returned. -/
theorem find_next_available_pos_on_circle_witness :
    find_next_available_pos 1 [] 0 0 = some (150, 0) ∧
    (∃ k : ℕ, Real.sqrt ((((150:ℝ), (0:ℝ)).1 - 0) ^ 2 + (((150:ℝ), (0:ℝ)).2 - 0) ^ 2)
        = 150 + 10 * (k : ℝ)) ∧
    150 ≤ Real.sqrt ((((150:ℝ), (0:ℝ)).1 - 0) ^ 2 + (((150:ℝ), (0:ℝ)).2 - 0) ^ 2) := by
  have h : find_next_available_pos 1 [] 0 0 = some (150, 0) := by
    simp [find_next_available_pos, find_pos_loop, collides]
  exact ⟨h, find_next_available_pos_on_circle 1 [] 0 0 (150, 0) h⟩

/-- C7: if two connected nodes occupy exactly the same position, the
modelled `update_position` raises no exception (returns `some`), and the
zero-length-ray fallback makes both rendered endpoints equal to that
shared position: the segment is degenerate. -/
theorem update_position_degenerate (p q : Pos) (h : q = p) :
    update_position p q = some (p, p) := by
  subst h
  simp [update_position, get_intersection_point]

/-- Witness for C7: both nodes saved at `(0, 0)`. -/
theorem update_position_degenerate_witness :
    ((0, 0) : Pos) = ((0, 0) : Pos) ∧
      update_position (0, 0) (0, 0) = some ((0, 0), (0, 0)) :=
  ⟨rfl, update_position_degenerate (0, 0) (0, 0) rfl⟩

end TagMap
